import Mathlib

/-!
Verification development for the `bmstu-report-system` LaTeX linter.

The Python sources under `report/scripts/` are shallowly embedded here:
strings become `List Char` (named `PyStr`), file texts are processed by
pure functions, and the process-wide mutable state of the citation
collector becomes an explicit `CiteState` value threaded through the
functions.  Each embedded definition mirrors one Python function of the
repository; comments cite the Python file and function it is taken from.

Modelling conventions:
- Python `str.strip` family uses the Python whitespace set; we embed the
  whitespace and line-terminator classes explicitly (`pyIsSpace`,
  `isLineTerm`).
- Python `str.lower`, `str.upper`, `str.isalpha` are full-Unicode; the
  embedding covers the ASCII and Cyrillic alphabets, which are the only
  cased alphabets occurring in the repository texts and in the regex
  character classes of the sources.
- regular expressions of the sources are embedded as hand-derived
  decision procedures; each one carries a comment deriving it from the
  Python pattern.
- loops that advance a cursor by a computed amount are embedded with a
  fuel argument equal to an upper bound on the number of iterations
  (each iteration consumes at least one character or advances the line
  index by at least one, so the fuel is never exhausted); this keeps all
  definitions structurally recursive and hence executable by the kernel.
-/

/-- Python strings are modelled as lists of characters. -/
abbrev PyStr := List Char

/-- Python whitespace class, as used by `str.strip` and by the regex
class `\s` (ASCII whitespace, the C1 separator controls, NEL, NBSP and
the Unicode space separators). -/
def pyIsSpace (c : Char) : Bool :=
  c == ' ' || c == '\t' || c == '\n' || c == '\x0b' || c == '\x0c' || c == '\r' ||
  c == '\x1c' || c == '\x1d' || c == '\x1e' || c == '\x1f' || c == '\x85' ||
  c == '\xa0' || c == '\u1680' ||
  (('\u2000' ≤ c && c ≤ '\u200a') : Bool) ||
  c == '\u2028' || c == '\u2029' || c == '\u202f' || c == '\u205f' || c == '\u3000'

/-- Line terminators recognised by Python `str.splitlines`. -/
def isLineTerm (c : Char) : Bool :=
  c == '\n' || c == '\r' || c == '\x0b' || c == '\x0c' ||
  c == '\x1c' || c == '\x1d' || c == '\x1e' || c == '\x85' ||
  c == '\u2028' || c == '\u2029'

/-- Python `str.lstrip()`. -/
def pyLstrip (s : PyStr) : PyStr := s.dropWhile pyIsSpace

/-- Python `str.rstrip()`. -/
def pyRstrip (s : PyStr) : PyStr := (s.reverse.dropWhile pyIsSpace).reverse

/-- Python `str.strip()`. -/
def pyStrip (s : PyStr) : PyStr := pyLstrip (pyRstrip s)

/-- Python `str.splitlines`, accumulator version.  `acc` holds the
characters of the current line in reverse; `prevCR` records that the
previous character was a carriage return whose line was already
emitted, so that a following newline is consumed silently (the
`\r\n` pairing of Python `splitlines`). -/
def splitlinesAux : PyStr → PyStr → Bool → List PyStr
  | [], acc, _ => if acc.isEmpty then [] else [acc.reverse]
  | c :: rest, acc, prevCR =>
      if prevCR && c = '\n' then splitlinesAux rest [] false
      else if c = '\r' then acc.reverse :: splitlinesAux rest [] true
      else if isLineTerm c then acc.reverse :: splitlinesAux rest [] false
      else splitlinesAux rest (c :: acc) false

/-- Python `str.splitlines()`. -/
def splitlinesPy (s : PyStr) : List PyStr := splitlinesAux s [] false

/-- Python `"\n".join(lines)`. -/
def joinNL : List PyStr → PyStr
  | [] => []
  | [l] => l
  | l :: l2 :: rest => l ++ '\n' :: joinNL (l2 :: rest)

/-- Python `haystack.find(needle)`, returning `none` for `-1`;
`i` is the index of the current scanning position. -/
def pyFindAux : PyStr → PyStr → Nat → Option Nat
  | [], pat, i => if pat.isPrefixOf ([] : PyStr) then some i else none
  | c :: r, pat, i =>
      if pat.isPrefixOf (c :: r) then some i else pyFindAux r pat (i + 1)

/-- Python `haystack.find(needle)` (as an `Option`). -/
def pyFind (s pat : PyStr) : Option Nat := pyFindAux s pat 0

/-- Python `needle in haystack` (substring containment). -/
def containsSub (s pat : PyStr) : Bool := (pyFind s pat).isSome

/-- Python slice `s[a:b]` for `0 ≤ a, b` (empty when `a ≥ b`). -/
def pySlice (s : PyStr) (a b : Nat) : PyStr := (s.drop a).take (b - a)

/-- Lower-to-upper table for the ASCII and Cyrillic alphabets
(the alphabets appearing in the repository and in the regex classes of
the sources); used to embed Python `str.upper`. -/
def upperTable : List (Char × Char) :=
  [('a', 'A'), ('b', 'B'), ('c', 'C'), ('d', 'D'), ('e', 'E'), ('f', 'F'),
   ('g', 'G'), ('h', 'H'), ('i', 'I'), ('j', 'J'), ('k', 'K'), ('l', 'L'),
   ('m', 'M'), ('n', 'N'), ('o', 'O'), ('p', 'P'), ('q', 'Q'), ('r', 'R'),
   ('s', 'S'), ('t', 'T'), ('u', 'U'), ('v', 'V'), ('w', 'W'), ('x', 'X'),
   ('y', 'Y'), ('z', 'Z'),
   ('а', 'А'), ('б', 'Б'), ('в', 'В'), ('г', 'Г'), ('д', 'Д'), ('е', 'Е'),
   ('ж', 'Ж'), ('з', 'З'), ('и', 'И'), ('й', 'Й'), ('к', 'К'), ('л', 'Л'),
   ('м', 'М'), ('н', 'Н'), ('о', 'О'), ('п', 'П'), ('р', 'Р'), ('с', 'С'),
   ('т', 'Т'), ('у', 'У'), ('ф', 'Ф'), ('х', 'Х'), ('ц', 'Ц'), ('ч', 'Ч'),
   ('ш', 'Ш'), ('щ', 'Щ'), ('ъ', 'Ъ'), ('ы', 'Ы'), ('ь', 'Ь'), ('э', 'Э'),
   ('ю', 'Ю'), ('я', 'Я'), ('ё', 'Ё')]

/-- Upper-to-lower table (the converse of `upperTable`); used to embed
Python `str.lower`. -/
def lowerTable : List (Char × Char) := upperTable.map (fun p => (p.2, p.1))

/-- Python `ch.upper()` restricted to ASCII and Cyrillic. -/
def pyToUpper (c : Char) : Char := ((upperTable.lookup c).getD c)

/-- Python `ch.lower()` restricted to ASCII and Cyrillic. -/
def pyToLower (c : Char) : Char := ((lowerTable.lookup c).getD c)

/-- Python `s.lower()`. -/
def pyLower (s : PyStr) : PyStr := s.map pyToLower

/-- The regex class `[A-Z]`. -/
def isLatUpper (c : Char) : Bool := 'A' ≤ c && c ≤ 'Z'

/-- The regex class `[a-z]`. -/
def isLatLower (c : Char) : Bool := 'a' ≤ c && c ≤ 'z'

/-- The regex class `[А-Я]` together with `Ё`. -/
def isCyrUpper (c : Char) : Bool := ('А' ≤ c && c ≤ 'Я') || c == 'Ё'

/-- The regex class `[а-я]` together with `ё`. -/
def isCyrLower (c : Char) : Bool := ('а' ≤ c && c ≤ 'я') || c == 'ё'

/-- Python `ch.isalpha()` restricted to ASCII and Cyrillic. -/
def pyIsAlpha (c : Char) : Bool :=
  isLatUpper c || isLatLower c || isCyrUpper c || isCyrLower c

/-- Python `ch.isupper()` restricted to ASCII and Cyrillic. -/
def pyIsUpper (c : Char) : Bool := isLatUpper c || isCyrUpper c

/-- Python `ch.islower()` restricted to ASCII and Cyrillic. -/
def pyIsLower (c : Char) : Bool := isLatLower c || isCyrLower c

/-- Python `ch.isdigit()` (ASCII digits). -/
def pyIsDigit (c : Char) : Bool := '0' ≤ c && c ≤ '9'

/-- The regex class `\w` (word character), restricted to the embedded
alphabets. -/
def isWordChar (c : Char) : Bool := pyIsAlpha c || pyIsDigit c || c == '_'

example : pyStrip "  ab c  ".toList = "ab c".toList := by decide
example : splitlinesPy "a\nb\r\nc\n".toList = ["a".toList, "b".toList, "c".toList] := by
  decide
example : splitlinesPy "a\rb\n".toList = ["a".toList, "b".toList] := by decide
example : joinNL ["a".toList, "".toList, "b".toList] = "a\n\nb".toList := by decide
example : pyFind "abcabc".toList "bc".toList = some 1 := by decide
example : pyFind "abc".toList "x".toList = none := by decide
example : pyLower "Рис. A".toList = "рис. a".toList := by decide
example : pyToUpper 'р' = 'Р' := by decide

/-!
Embedding of `report/scripts/lint_tex_submodules/links_linter.py`.

The module keeps two process-wide globals: the set `ALL_CITATIONS` and
the insertion-ordered map `FIRST_OCCURRENCE` (an `OrderedDict`).  We
model them as an explicit state value.  The set is modelled as a
duplicate-free insertion-ordered list (only membership in it is ever
observed); the ordered map as an association list in insertion order.
-/

/-- Global citation state of `links_linter.py`: `ALL_CITATIONS` and
`FIRST_OCCURRENCE` (key, (file_index, pos_in_file)). -/
structure CiteState where
  allCitations : List PyStr
  firstOccurrence : List (PyStr × Nat × Nat)
deriving DecidableEq, Repr

/-- The initial (empty) global state. -/
def emptyCiteState : CiteState := { allCitations := [], firstOccurrence := [] }

/-- `FILE_ORDER` from `links_linter.py`. -/
def FILE_ORDER : List PyStr :=
  ["abstract.pdf".toList, "intro.pdf".toList, "analytic_part.pdf".toList,
   "design_part.pdf".toList, "tech_part.pdf".toList,
   "experimental_part.pdf".toList, "conclusion.pdf".toList,
   "additions.pdf".toList]

/-- File priority of `_process_text_file`:
`FILE_ORDER.index(filename) if filename in FILE_ORDER else len(FILE_ORDER)`.
`List.indexOf` returns the length when the element is absent, exactly
matching the Python expression. -/
def fileIndexOf (filename : PyStr) : Nat := FILE_ORDER.indexOf filename

/-- The literal `\cite{` that starts a citation-command match. -/
def citeTok : PyStr := "\\cite\x7b".toList

/-- Helper for the regex `\\cite\{([^}]*)\}`: the group `[^}]*` followed
by the literal `}`.  Returns the group and the remainder after the
closing brace, or `none` when no closing brace exists. -/
def takeUntilBrace : PyStr → Option (PyStr × PyStr)
  | [] => none
  | c :: rest =>
      if c = '}' then some ([], rest)
      else match takeUntilBrace rest with
        | some (inner, rem) => some (c :: inner, rem)
        | none => none

/-- `re.finditer(r"\\cite\{([^}]*)\}", text)`: the list of captured
groups, scanning left to right, non-overlapping.  The fuel bounds the
number of scanning steps; each step consumes at least one character, so
`text.length` fuel is always sufficient. -/
def findCitesF : Nat → PyStr → List PyStr
  | 0, _ => []
  | _ + 1, [] => []
  | fuel + 1, c :: rest =>
      if citeTok.isPrefixOf (c :: rest) then
        match takeUntilBrace ((c :: rest).drop citeTok.length) with
        | some (inner, rem) => inner :: findCitesF fuel rem
        | none => findCitesF fuel rest
      else findCitesF fuel rest

/-- All `\cite` groups of a text. -/
def findCites (text : PyStr) : List PyStr := findCitesF text.length text

/-- Python `s.split(",")`. -/
def splitComma : PyStr → List PyStr
  | [] => [[]]
  | c :: rest =>
      if c = ',' then [] :: splitComma rest
      else match splitComma rest with
        | h :: t => (c :: h) :: t
        | [] => [[c]]

/-- `[k.strip() for k in group.split(",") if k.strip()]` from
`_process_text_file`. -/
def keysOfGroup (group : PyStr) : List PyStr :=
  ((splitComma group).map pyStrip).filter (fun k => !k.isEmpty)

/-- The flattened citation-key stream of one text, in order of
appearance (`citations` in `_process_text_file`). -/
def citationsOf (text : PyStr) : List PyStr :=
  (findCites text).flatMap keysOfGroup

/-- One step of the loop `for pos, key in enumerate(citations)` of
`_process_text_file`: add to `ALL_CITATIONS`, record the first
occurrence if the key is new. -/
def recordCitation (fileIndex : Nat) (st : CiteState) (p : Nat × PyStr) : CiteState :=
  { allCitations :=
      if st.allCitations.contains p.2 then st.allCitations
      else st.allCitations ++ [p.2],
    firstOccurrence :=
      if (st.firstOccurrence.lookup p.2).isSome then st.firstOccurrence
      else st.firstOccurrence ++ [(p.2, fileIndex, p.1)] }

/-- `_process_text_file(text, filename)` from `links_linter.py`
(state effect only; the function returns the text unchanged). -/
def process_text_file (st : CiteState) (text filename : PyStr) : CiteState :=
  let fileIndex := fileIndexOf filename
  (citationsOf text).enum.foldl (recordCitation fileIndex) st

example :
    (process_text_file emptyCiteState "x \\cite\x7ba, b\x7d y \\cite\x7ba\x7d".toList
      "intro".toList).firstOccurrence =
    [("a".toList, 8, 0), ("b".toList, 8, 1)] := by decide

example : fileIndexOf "intro.pdf".toList = 1 := by decide
example : fileIndexOf "intro".toList = 8 := by decide

/-- The literal `\begin{thebibliography}` searched by
`_process_links_file`. -/
def beginBibTok : PyStr := "\\begin{thebibliography}".toList

/-- The literal `\end{thebibliography}` searched by
`_process_links_file`. -/
def endBibTok : PyStr := "\\end{thebibliography}".toList

/-- The literal `\bibitem{` tested with `startswith`. -/
def bibitemTok : PyStr := "\\bibitem\x7b".toList

/-- Python dict assignment `d[k] = v` on an association list
(overwrite in place or append). -/
def assocSet (l : List (PyStr × PyStr)) (k v : PyStr) : List (PyStr × PyStr) :=
  match l with
  | [] => [(k, v)]
  | (k0, v0) :: rest => if k0 = k then (k, v) :: rest else (k0, v0) :: assocSet rest k v

/-- Parser state of the `\bibitem` extraction loop in
`_process_links_file`: `current_key`, `buffer`, `bib_items`,
`bib_order`. -/
structure BibParse where
  currentKey : Option PyStr
  buffer : List PyStr
  items : List (PyStr × PyStr)
  order : List PyStr
deriving DecidableEq, Repr

/-- The save-previous-element step
(`if current_key is not None and buffer: ...`). -/
def bibFlush (st : BibParse) : BibParse :=
  match st.currentKey with
  | some k =>
      if st.buffer.isEmpty then st
      else { st with
              items := assocSet st.items k (joinNL st.buffer),
              order := st.order ++ [k],
              buffer := [] }
  | none => st

/-- One iteration of `for line in lines` in `_process_links_file`.
The regex `re.match(r"\\bibitem\{([^}]*)\}(.*)", stripped)` is applied
only to lines already known to start with `\bibitem{`; it succeeds
exactly when a closing brace follows, with group 1 the text up to the
first closing brace. -/
def parseBibLine (st : BibParse) (line : PyStr) : BibParse :=
  let stripped := pyStrip line
  if bibitemTok.isPrefixOf stripped then
    let st1 := bibFlush st
    match takeUntilBrace (stripped.drop bibitemTok.length) with
    | some (inner, _) => { st1 with currentKey := some (pyStrip inner), buffer := [line] }
    | none => { st1 with currentKey := none, buffer := [] }
  else if st.currentKey.isSome then { st with buffer := st.buffer ++ [line] }
  else st

/-- The `\bibitem` extraction of `_process_links_file` over the lines of
the environment content: returns `(bib_items, bib_order)`. -/
def parseBib (lines : List PyStr) : List (PyStr × PyStr) × List PyStr :=
  let st := bibFlush (lines.foldl parseBibLine ⟨none, [], [], []⟩)
  (st.items, st.order)

/-- `ordered_keys` of `_process_links_file`: keys of the
first-occurrence map, in map (insertion) order, that have a
bibliography entry. -/
def orderedKeysOf (st : CiteState) (bibItems : List (PyStr × PyStr)) : List PyStr :=
  (st.firstOccurrence.map Prod.fst).filter (fun k => (bibItems.lookup k).isSome)

/-- `new_order = ordered_keys + remaining_keys` of
`_process_links_file`. -/
def newOrderOf (st : CiteState) (bibItems : List (PyStr × PyStr))
    (bibOrder : List PyStr) : List PyStr :=
  let ok := orderedKeysOf st bibItems
  ok ++ bibOrder.filter (fun k => !ok.contains k)

/-- The environment bounds and parsed entries of a bibliography text,
as computed by `_process_links_file` (the text between the first
`\begin{thebibliography}` and the first `\end{thebibliography}`). -/
def parsedBibOf (text : PyStr) : List (PyStr × PyStr) × List PyStr :=
  match pyFind text beginBibTok, pyFind text endBibTok with
  | some es, some ee => parseBib (splitlinesPy (pySlice text es ee))
  | _, _ => ([], [])

/-- The rebuilt entry order `new_order` that `_process_links_file`
computes for a bibliography text under citation state `st`. -/
def targetOrderOf (st : CiteState) (text : PyStr) : List PyStr :=
  newOrderOf st (parsedBibOf text).1 (parsedBibOf text).2

/-- `_process_links_file(text, filepath)` from `links_linter.py`:
returns the final citation state, the numeric code and the output text.
Warnings are log-only and are not modelled. -/
def process_links_file (st : CiteState) (text : PyStr) : CiteState × Nat × PyStr :=
  match pyFind text beginBibTok, pyFind text endBibTok with
  | some es, some ee =>
      let envContent := pySlice text es ee
      let parsed := parseBib (splitlinesPy envContent)
      let newOrder := newOrderOf st parsed.1 parsed.2
      if newOrder = parsed.2 then (st, 0, text)
      else
        let newEnvContent := joinNL (newOrder.map (fun k => (parsed.1.lookup k).getD []))
        let fullEnv :=
          "\\begin{thebibliography}\x7b\x7d".toList ++
          "\n\t\\vspace\x7b-1\\baselineskip\x7d\n\n".toList ++
          newEnvContent ++ "\n\n\\end{thebibliography}".toList
        (emptyCiteState, 0, text.take es ++ fullEnv ++ text.drop (ee + endBibTok.length))
  | _, _ => (st, 0, text)

/-- The recorded first-occurrence coordinate of a key (used only to
state claim C1). -/
def coordOf (st : CiteState) (k : PyStr) : Nat × Nat :=
  (st.firstOccurrence.lookup k).getD (0, 0)

/-- Lexicographic order on `(fragment_rank, position)` coordinates. -/
def coordLexLe (a b : Nat × Nat) : Bool :=
  decide (a.1 < b.1) || (decide (a.1 = b.1) && decide (a.2 ≤ b.2))

/-- Adjacent-pairs chain of a boolean relation. -/
def boolChain (r : α → α → Bool) : List α → Bool
  | [] => true
  | [_] => true
  | a :: b :: t => r a b && boolChain r (b :: t)

/-- A key list is listed in ascending order of the recorded
`(fragment_rank, position)` coordinates (the ordering claim C1
attributes to the reorderer). -/
def coordAscending (st : CiteState) (keys : List PyStr) : Bool :=
  boolChain (fun x y => coordLexLe (coordOf st x) (coordOf st y)) keys

/-- The amended C1 target order, written from the amended claim text:
the keys present in the first-occurrence map, in the order in which
they were first recorded (the map insertion order), restricted to keys
that have bibliography entries, followed by the remaining existing
entries in their original relative order. -/
def specFirstOccurrenceTarget (st : CiteState) (text : PyStr) : List PyStr :=
  let presentWithEntries :=
    (st.firstOccurrence.map Prod.fst).filter
      (fun k => ((parsedBibOf text).1.lookup k).isSome)
  presentWithEntries ++
    (parsedBibOf text).2.filter (fun k => !presentWithEntries.contains k)

example :
    parsedBibOf ("\\begin{thebibliography}\x7b\x7d\n\\bibitem\x7bc\x7d C\n\\bibitem\x7ba\x7d A\n\\bibitem\x7bb\x7d B\n\\end{thebibliography}").toList =
      ([("c".toList, "\\bibitem\x7bc\x7d C".toList),
        ("a".toList, "\\bibitem\x7ba\x7d A".toList),
        ("b".toList, "\\bibitem\x7bb\x7d B".toList)],
       ["c".toList, "a".toList, "b".toList]) := by decide

/-!
Embedding of the author rules of
`report/scripts/lint_tex_submodules/bibitem_formatting.py`
(`BibliographyValidator.validate_author_rules` and its helpers).
-/

/-- Python `re.split(r"//|--", s, maxsplit=1)[0]`: the prefix of `s`
before the earliest occurrence of `//` or `--` (the whole string when
neither occurs).  `_get_all_authors_count` computes the same prefix by
two successive `split(..)[0]` calls. -/
def leadSegment : PyStr → PyStr
  | [] => []
  | c :: rest =>
      if ("//".toList).isPrefixOf (c :: rest) || ("--".toList).isPrefixOf (c :: rest) then []
      else c :: leadSegment rest

/-- Python `re.split(r"[;,]", s)` (the `author_separator` pattern). -/
def splitSeps : PyStr → List PyStr
  | [] => [[]]
  | c :: rest =>
      if c == ';' || c == ',' then [] :: splitSeps rest
      else match splitSeps rest with
        | h :: t => (c :: h) :: t
        | [] => [[c]]

/-- `_extract_start_authors`: the nonempty stripped `[;,]`-chunks of the
lead segment. -/
def extract_start_authors (entry : PyStr) : List PyStr :=
  ((splitSeps (pyStrip (leadSegment entry))).map pyStrip).filter (fun a => !a.isEmpty)

/-- `_count_authors`: number of nonempty stripped `[;,]`-chunks (the
Python early return 0 on the empty string coincides with the count). -/
def count_authors (s : PyStr) : Nat :=
  ((((splitSeps s).map pyStrip).filter (fun a => !a.isEmpty))).length

/-- Tail of the `etal_source` regex after the literal `et`:
`\s*\.?\s*al` (the final `\.?` of the pattern is optional and thus
irrelevant to matching). -/
def etAlTail (l : PyStr) : Bool :=
  let r1 := l.dropWhile pyIsSpace
  let r2 := match r1 with
    | '.' :: t => t.dropWhile pyIsSpace
    | _ => r1
  match r2 with
  | a :: b :: _ => pyToLower a == 'a' && pyToLower b == 'l'
  | _ => false

/-- Tail of the `etal_source` regex after the literal `и`: `\s*др`
(the final `\.?` is irrelevant to matching). -/
def idrTail (l : PyStr) : Bool :=
  match l.dropWhile pyIsSpace with
  | d :: r :: _ => pyToLower d == 'д' && pyToLower r == 'р'
  | _ => false

/-- Does the `etal_source` regex `et\s*\.?\s*al\.?|и\s*др\.?`
(IGNORECASE) match at the start of `l`? -/
def etalSourceAt (l : PyStr) : Bool :=
  (match l with
   | c1 :: c2 :: rest => pyToLower c1 == 'e' && pyToLower c2 == 't' && etAlTail rest
   | _ => false) ||
  (match l with
   | c1 :: rest => pyToLower c1 == 'и' && idrTail rest
   | _ => false)

/-- `re.search` of the `etal_source` pattern (match at any position). -/
def etalSourceFound : PyStr → Bool
  | [] => false
  | c :: rest => etalSourceAt (c :: rest) || etalSourceFound rest

/-- Does the `etal_marker` regex `\[и\s*др\.\]` (case-sensitive) match
at the start of `l`? -/
def etalMarkerAt (l : PyStr) : Bool :=
  match l with
  | '[' :: 'и' :: rest =>
      (match rest.dropWhile pyIsSpace with
       | 'д' :: 'р' :: '.' :: ']' :: _ => true
       | _ => false)
  | _ => false

/-- `re.search` of the `etal_marker` pattern. -/
def etalMarkerFound : PyStr → Bool
  | [] => false
  | c :: rest => etalMarkerAt (c :: rest) || etalMarkerFound rest

/-- `_has_etal_indication`. -/
def has_etal_indication (s : PyStr) : Bool := etalSourceFound s || etalMarkerFound s

/-- The `electronic_marker` regex `\[Электронный ресурс\]` with
IGNORECASE, via lowering both sides. -/
def electronicMarkerFound (s : PyStr) : Bool :=
  containsSub (pyLower s) "[электронный ресурс]".toList

/-- Index of the first occurrence of a character. -/
def firstCharIdx (c : Char) (s : PyStr) : Option Nat := s.findIdx? (· == c)

/-- The `author_slash_section` regex `^([^/]+)\s*/\s*([^/]+?(?://|$))`
as a `re.match` returning the two groups.

Derivation: `([^/]+)` is greedy and cannot cross a `/`, so the `/`
consumed by the pattern is the first `/` of the string and group 1 is
everything before it (which must be nonempty).  After that `/`, with
`rest` the remainder: `\s*` takes `j` leading whitespace characters
(preferring the maximal `j0`), group 2 lazily takes a nonempty
`/`-free span ending at the earliest position `m > j` that either is
the end of the string, or is the final character when that character is
a newline (the Python `$`), or starts a literal `//` (which is then
included in group 2).  If no such `m > j0` exists the engine backtracks
`\s*`, which yields the largest valid `m ≤ j0` with `j = m - 1`.  All
of this was cross-checked against CPython `re` on the edge cases. -/
def slashSection (s : PyStr) : Option (PyStr × PyStr) :=
  match firstCharIdx '/' s with
  | none => none
  | some a =>
      if a = 0 then none
      else
        let rest := s.drop (a + 1)
        let bound := (firstCharIdx '/' rest).getD rest.length
        let j0 := (rest.takeWhile pyIsSpace).length
        let isDoubleSlash := fun (m : Nat) =>
          rest.getD m ' ' == '/' && rest.getD (m + 1) ' ' == '/'
        let term := fun (m : Nat) =>
          decide (m ≤ bound) &&
            (decide (m = rest.length) ||
             (decide (m + 1 = rest.length) && rest.getD m ' ' == '\n') ||
             isDoubleSlash m)
        let groupEnd := fun (m : Nat) => if isDoubleSlash m then m + 2 else m
        match (List.range (bound + 1)).find? (fun m => decide (j0 < m) && term m) with
        | some m => some (s.take a, (rest.drop j0).take (groupEnd m - j0))
        | none =>
            match ((List.range (j0 + 1)).filter (fun m => decide (1 ≤ m) && term m)).getLast? with
            | some m => some (s.take a, (rest.drop (m - 1)).take (groupEnd m - (m - 1)))
            | none => none

/-- A match of the `author_with_comma` regex
`([А-ЯЁа-яёA-Z][а-яёa-z]+),\s*([А-ЯЁA-Z]\.)` at the start of the
string: a cased letter, a nonempty maximal run of lowercase letters
(maximality forced by the following literal comma), a comma, optional
whitespace, an uppercase initial with a period.  Returns the two groups
and the remainder after the match. -/
def matchAuthorCommaAt : PyStr → Option ((PyStr × PyStr) × PyStr)
  | [] => none
  | c0 :: rest =>
      if isCyrUpper c0 || isCyrLower c0 || isLatUpper c0 then
        let run := rest.takeWhile (fun c => isCyrLower c || isLatLower c)
        if run.isEmpty then none
        else match rest.drop run.length with
          | ',' :: rest3 =>
              (match rest3.dropWhile pyIsSpace with
               | ci :: '.' :: rest5 =>
                   if isCyrUpper ci || isLatUpper ci then
                     some ((c0 :: run, [ci, '.']), rest5)
                   else none
               | _ => none)
          | _ => none
      else none

/-- `re.findall` of `author_with_comma`: left-to-right, non-overlapping.
Each successful match consumes at least one character, so `s.length`
fuel suffices. -/
def authorCommaFindallF : Nat → PyStr → List (PyStr × PyStr)
  | 0, _ => []
  | _ + 1, [] => []
  | fuel + 1, c :: rest =>
      match matchAuthorCommaAt (c :: rest) with
      | some (g, rem) => g :: authorCommaFindallF fuel rem
      | none => authorCommaFindallF fuel rest

/-- All `author_with_comma` matches of a string. -/
def authorCommaFindall (s : PyStr) : List (PyStr × PyStr) :=
  authorCommaFindallF s.length s

/-- `_get_all_authors_count`. -/
def get_all_authors_count (s : PyStr) : Nat :=
  match slashSection s with
  | some (_, g2) => count_authors (pyStrip (leadSegment g2))
  | none => (extract_start_authors s).length

/-- The warnings that `validate_author_rules` can append, abstracted
from their message strings. -/
inductive AuthorWarning where
  | commaForm (surname initial : PyStr)
  | needSlash (authorCount : Nat)
  | notAllListed (authorCount foundCount : Nat)
  | slashNotNeeded (authorCount : Nat)
deriving DecidableEq, Repr

/-- `BibliographyValidator.validate_author_rules(entry_content)`:
the list of author-rule warnings, in the order the Python code appends
them. -/
def validate_author_rules (entry : PyStr) : List AuthorWarning :=
  let rule1 := (authorCommaFindall entry).map (fun g => AuthorWarning.commaForm g.1 g.2)
  let slashM := slashSection entry
  let hasElectronic := electronicMarkerFound entry
  let authorCount := (extract_start_authors entry).length
  let hasEtal := has_etal_indication entry
  rule1 ++
    (if authorCount > 3 || hasEtal then
      match slashM with
      | none => [AuthorWarning.needSlash authorCount]
      | some g =>
          let authorsPart := pyStrip (leadSegment g.2)
          let authorsCount := get_all_authors_count authorsPart
          if !has_etal_indication authorsPart && authorsCount < authorCount then
            [AuthorWarning.notAllListed authorCount authorsCount]
          else []
    else
      match slashM with
      | some _ =>
          if !hasElectronic then [AuthorWarning.slashNotNeeded authorCount] else []
      | none => [])

example : slashSection "abc / def // gh".toList = some ("abc ".toList, "def //".toList) := by
  decide
example : slashSection "a//".toList = none := by decide
example : slashSection "a/  //x".toList = some ("a".toList, " //".toList) := by decide
example : etalSourceFound "сидр".toList = true := by decide
example : etalSourceFound "Сидоров Петров".toList = false := by decide
example :
    authorCommaFindall "Иванов, А. Петров; Б. Сидоров".toList =
      [("Иванов".toList, "А.".toList)] := by decide
example :
    (extract_start_authors "Иванов А.А., Петров Б.Б., Сидоров В.В., Козлов Г.Г. Название".toList).length = 4 := by
  decide

/-!
Embedding of `report/scripts/lint_tex_submodules/list_puctuation.py`
(`fix_lists`).  The Python function mutates a list of lines inside a
`while i < len(lines)` loop; the embedding threads the line list and
the `processed_positions` set (a list of indices) explicitly and uses a
fuel bound on the number of loop iterations: every iteration performed
with `i < len(lines)` advances `i` by at least one (the environment
branch continues at `end_idx + 1 > i`), so `lines.length + 1` fuel is
never exhausted.
-/

/-- The ignore annotation searched with the `in` operator. -/
def ignoreTok : PyStr := "% #lint-ignore".toList

/-- The literal `\begin{itemize}`. -/
def beginItemizeTok : PyStr := "\\begin{itemize}".toList

/-- The literal `\begin{enumerate}`. -/
def beginEnumerateTok : PyStr := "\\begin{enumerate}".toList

/-- The literal `\item`. -/
def itemTok : PyStr := "\\item".toList

/-- The alternatives of the `ABBREV_EXCEPTIONS` regex
`(т\.д|т\.п|и\.о|т\.о|рис|табл|eq|eqref|ref|cite|footnote|рис\.|табл\.)\.?$`. -/
def abbrevAlts : List PyStr :=
  ["т.д".toList, "т.п".toList, "и.о".toList, "т.о".toList, "рис".toList,
   "табл".toList, "eq".toList, "eqref".toList, "ref".toList, "cite".toList,
   "footnote".toList, "рис.".toList, "табл.".toList]

/-- `bool(ABBREV_EXCEPTIONS.search(sa.lower()))` for an already
right-stripped `sa` (so the `$` anchor is the end of the string): some
alternative, optionally followed by one period, is a suffix of the
lowered string. -/
def is_abbreviation (sa : PyStr) : Bool :=
  abbrevAlts.any (fun a => a.isSuffixOf (pyLower sa) || (a ++ ['.']).isSuffixOf (pyLower sa))

/-- `bool(MATH_END_REGEX.search(sa))` with `MATH_END_REGEX = \$\s*$`,
for an already right-stripped `sa`: the last character is a dollar. -/
def is_in_math (sa : PyStr) : Bool := sa.getLast? == some '$'

/-- `LATEX_MATH_START_REGEX.match(s)`:
`^(\$|\\[a-zA-Z]|\\[^a-zA-Z]|\\\(|\\\[|\\begin\{)` matches exactly when
the string starts with a dollar, or with a backslash followed by at
least one character (the second and third alternatives together cover
every following character; the remaining alternatives are subsumed). -/
def latexMathStart (s : PyStr) : Bool :=
  match s with
  | '$' :: _ => true
  | '\\' :: _ :: _ => true
  | _ => false

/-- The first-word delimiter set of `fix_lists`
(the Python literal is a space, comma, period, semicolon, colon,
exclamation and question mark, opening parenthesis, bracket and brace
(code 123), slash, backslash, double quote and apostrophe (code 39)). -/
def firstWordSeps : PyStr :=
  [' ', ',', '.', ';', ':', '!', '?', '(', '[', Char.ofNat 123, '/', '\\', '"',
   Char.ofNat 39]

/-- The bracket-or-space set that ends an `in_command` span in the
colon scan (codes 123 and 125 are the braces). -/
def colonBracketSet : PyStr :=
  [Char.ofNat 123, Char.ofNat 125, '[', ']', '(', ')', ' ']

/-- The per-character colon scan of step 5 of `fix_lists` (state:
`in_command`, `in_math`); reports an unescaped, non-command colon that
is not followed by a dollar or backslash (and not at end of line). -/
def hasColonScan : PyStr → Bool → Bool → Bool
  | [], _, _ => false
  | c :: rest, inCmd, inMath =>
      let inMath2 := if c == '$' then !inMath else inMath
      let inCmd2 :=
        if c == '\\' && (match rest with | r :: _ => pyIsAlpha r | [] => false) then true
        else if inCmd && colonBracketSet.contains c then false
        else inCmd
      if c == ':' && !inCmd2 && !inMath2 &&
          (match rest with | r :: _ => !(r == '$' || r == '\\') | [] => false) then true
      else hasColonScan rest inCmd2 inMath2

/-- Step 3 of `fix_lists`: the nearest non-empty line strictly before
index `n`, scanning downward (the Python code collects up to five such
lines but only ever uses the nearest one, `context_lines[-1]`; the
collection is empty exactly when no non-empty line exists above). -/
def nearestCtx (lines : List PyStr) : Nat → Option (Nat × PyStr)
  | 0 => none
  | n + 1 =>
      let l := lines.getD n []
      if (pyStrip l).isEmpty then nearestCtx lines n else some (n, l)

/-- `re.search(r"\bгде\b\s*$", stripped, re.IGNORECASE)` on an already
stripped line: the lowered line ends with the word, and the character
before it (if any) is not a word character (`\s*` must be empty and the
closing `\b` holds at the end since the line is stripped). -/
def isAfterGdeLine (strippedNearest : PyStr) : Bool :=
  let t := pyLower strippedNearest
  ("где".toList).isSuffixOf t &&
    (decide (t.length = 3) || !isWordChar (t.getD (t.length - 4) ' '))

/-- `re.search("[X]\s*$", s)` for a character set `X`: after removing
trailing whitespace the last character lies in `X` (the `$`-before-a-
final-newline case is subsumed because a trailing newline is
whitespace). -/
def searchPunctEnd (set : PyStr) (s : PyStr) : Bool :=
  match (pyRstrip s).getLast? with
  | some c => set.contains c
  | none => false

/-- The `PUNCTUATION_REGEX` character set `[.!?;:]`. -/
def punct5 : PyStr := ['.', '!', '?', ';', ':']

/-- The case-1 character set `[.!?]`. -/
def punct3 : PyStr := ['.', '!', '?']

/-- The case-3 exceptions:
`re.match(r"^\s*(\\[a-zA-Z]+|\$)", s)` or `re.search(r"^\s*\\label", s)`. -/
def ctxStartExempt (s : PyStr) : Bool :=
  let t := s.dropWhile pyIsSpace
  (match t with
   | '$' :: _ => true
   | '\\' :: c :: _ => isLatUpper c || isLatLower c
   | _ => false) ||
  ("\\label".toList).isPrefixOf t

/-- Step 7 of `fix_lists`: rewriting of the nearest context line
(already guarded by the absence of the ignore annotation). -/
def ctxRewrite (lines : List PyStr) (cIdx : Nat) (cline : PyStr)
    (modeColon isAfterGde : Bool) : List PyStr :=
  let sc := pyRstrip cline
  let indent := cline.take (cline.length - (pyLstrip cline).length)
  if ([':'] : PyStr).isSuffixOf sc then
    if modeColon then lines
    else
      if !searchPunctEnd punct3 sc.dropLast then
        lines.set cIdx (indent ++ pyRstrip sc.dropLast ++ ['.'])
      else lines
  else if isAfterGde then lines
  else if !searchPunctEnd punct5 sc then
    if !ctxStartExempt sc then lines.set cIdx (indent ++ sc ++ ['.'])
    else lines
  else lines

/-- The terminal punctuation appended by step 8 of `fix_lists`. -/
def modeEnding (modeColon isAfterGde isLast : Bool) : PyStr :=
  if isAfterGde && !isLast then [';']
  else if modeColon then (if isLast then ['.'] else [';'])
  else ['.']

/-- The `should_process_first_letter` decision of step 8 of
`fix_lists` (checks 1 and 2: LaTeX or math start; acronym or single
capital first word). -/
def caseShouldProcess (after : PyStr) : Bool :=
  let s1 := !latexMathStart after
  if s1 && decide (0 < after.length) then
    let sample := after.take 100
    let firstWordEnd := (sample.findIdx? (fun c => firstWordSeps.contains c)).getD sample.length
    let firstWord := pyStrip (sample.take firstWordEnd)
    let upperCount := (firstWord.filter (fun c => pyIsAlpha c && pyIsUpper c)).length
    if upperCount > 1 then false
    else if firstWord.length = 1 && upperCount = 1 then false
    else true
  else s1

/-- The first-letter processing of step 8 of `fix_lists`, applied to
the item body `after` (`new_after_item`). -/
def caseStep (after : PyStr) (modeColon isAfterGde : Bool) : PyStr :=
  if caseShouldProcess after && decide (0 < after.length) then
    match after.findIdx? pyIsAlpha with
    | some k =>
        if k < after.length - 1 then
          let c := after.getD k ' '
          if modeColon && !isAfterGde then
            (if pyIsUpper c then after.set k (pyToLower c) else after)
          else
            (if pyIsLower c then after.set k (pyToUpper c) else after)
        else after
    | none => after
  else after

/-- The terminal-punctuation processing of step 8 of `fix_lists`,
applied to the cased item body: right-strip, optionally remove a
trailing `.`, `,`, `:` or `;` (unless the tail is a recognised
abbreviation or ends inside math), then append the mode ending. -/
def endingStep (s : PyStr) (modeColon isAfterGde isLast : Bool) : PyStr :=
  let sa := pyRstrip s
  match sa.getLast? with
  | none => []
  | some lastChar =>
      let shouldRemove :=
        (lastChar == '.' || lastChar == ',' || lastChar == ':' || lastChar == ';') &&
        !is_abbreviation sa && !is_in_math sa
      let sa2 := if shouldRemove then pyRstrip sa.dropLast else sa
      sa2 ++ modeEnding modeColon isAfterGde isLast

/-- Full processing of one item body. -/
def processItemCore (after : PyStr) (modeColon isAfterGde isLast : Bool) : PyStr :=
  endingStep (caseStep after modeColon isAfterGde) modeColon isAfterGde isLast

/-- `new_line_content = f"{before_item}\\item {stripped_after}{new_ending}"`. -/
def itemNewLine (beforeItem after : PyStr) (modeColon isAfterGde isLast : Bool) : PyStr :=
  beforeItem ++ "\\item ".toList ++ processItemCore after modeColon isAfterGde isLast

/-- Step 4 of `fix_lists`: the item lines of the environment, as
`(line index, position of the item marker, original line)`. -/
def itemsOf (lines : List PyStr) (startIdx endIdx : Nat) : List (Nat × Nat × PyStr) :=
  (List.range' (startIdx + 1) (endIdx - (startIdx + 1))).filterMap (fun j =>
    match pyFind (lines.getD j []) itemTok with
    | some p => some (j, p, lines.getD j [])
    | none => none)

/-- Step 5 of `fix_lists` over the collected items. -/
def hasColonInItems (items : List (Nat × Nat × PyStr)) : Bool :=
  items.any (fun t =>
    !containsSub t.2.2 ignoreTok && hasColonScan (t.2.2.drop (t.2.1 + 5)) false false)

/-- Step 8 of `fix_lists`: the per-item rewriting loop.  Item triples
were captured before any mutation; `rest.isEmpty` is the Python
`idx == len(items) - 1`. -/
def itemsFold (lines : List PyStr) (items : List (Nat × Nat × PyStr))
    (modeColon isAfterGde : Bool) : List PyStr :=
  match items with
  | [] => lines
  | (j, p, l) :: rest =>
      let lines2 :=
        if containsSub l ignoreTok then lines
        else
          let after := pyLstrip (l.drop (p + 5))
          if (pyStrip after).isEmpty then lines
          else lines.set j (itemNewLine (l.take p) after modeColon isAfterGde rest.isEmpty)
      itemsFold lines2 rest modeColon isAfterGde

/-- Steps 5 to 8 of `fix_lists` for one detected environment. -/
def processList (lines : List PyStr) (cIdx : Nat) (cline : PyStr)
    (items : List (Nat × Nat × PyStr)) : List PyStr :=
  let strippedNearest := pyStrip cline
  let endsWithColon := ([':'] : PyStr).isSuffixOf strippedNearest
  let gde := isAfterGdeLine strippedNearest
  let ignoreBefore := containsSub cline ignoreTok
  let hasColon := hasColonInItems items
  let modeColon0 := !hasColon && endsWithColon && !ignoreBefore
  let modeColon := if gde then false else modeColon0
  let lines1 := if !ignoreBefore then ctxRewrite lines cIdx cline modeColon gde else lines
  itemsFold lines1 items modeColon gde

/-- Step 2 of `fix_lists`: the end index of the environment (exact
match within the 200-line window, then any `\end{` fallback). -/
def findEndIdx (lines : List PyStr) (i : Nat) (envType : PyStr) : Option Nat :=
  let searchLimit := min (i + 200) lines.length
  let idxs := List.range' (i + 1) (searchLimit - (i + 1))
  match idxs.find? (fun j =>
      pyStrip (lines.getD j []) == "\\end\x7b".toList ++ envType ++ "\x7d".toList) with
  | some e => some e
  | none => idxs.find? (fun j => ("\\end\x7b".toList).isPrefixOf (pyStrip (lines.getD j [])))

/-- One iteration of the `while` loop of `fix_lists` for a position not
yet in `processed_positions` and not hitting the length guard: returns
the new lines, the new processed set and the new cursor. -/
def lintStep (lines : List PyStr) (processed : List Nat) (i : Nat) :
    List PyStr × List Nat × Nat :=
  let stripped := pyStrip (lines.getD i [])
  if beginItemizeTok.isPrefixOf stripped || beginEnumerateTok.isPrefixOf stripped then
    let envType :=
      if containsSub stripped "itemize".toList then "itemize".toList
      else "enumerate".toList
    match findEndIdx lines i envType with
    | none => (lines, processed, i + 1)
    | some e =>
        match nearestCtx lines i with
        | none => (lines, processed ++ List.range' i (e + 1 - i), e + 1)
        | some ctx =>
            let items := itemsOf lines i e
            if items.isEmpty then (lines, processed ++ List.range' i (e + 1 - i), e + 1)
            else (processList lines ctx.1 ctx.2 items,
                  processed ++ List.range' i (e + 2 - i), e + 1)
  else (lines, processed ++ [i + 1], i + 1)

/-- The `while` loop of `fix_lists` (fuel-bounded; see the section
comment for why the fuel is never exhausted). -/
def fixLoopFuel : Nat → List PyStr → List Nat → Nat → List PyStr
  | 0, lines, _, _ => lines
  | fuel + 1, lines, processed, i =>
      if i < lines.length then
        if processed.contains i then fixLoopFuel fuel lines processed (i + 1)
        else if i > lines.length * 2 then lines
        else
          let r := lintStep lines processed i
          fixLoopFuel fuel r.1 r.2.1 r.2.2
      else lines

/-- `fix_lists` on the split lines. -/
def fixListsLines (lines : List PyStr) : List PyStr :=
  fixLoopFuel (lines.length + 1) lines [] 0

/-- `fix_lists(text, filepath)` from `list_puctuation.py`: the returned
text (`"\n".join(lines)`; the numeric code is always 0 and logging is
not modelled). -/
def fix_lists (text : PyStr) : PyStr := joinNL (fixListsLines (splitlinesPy text))

/-- The driver loop body of `apply_rules_to_file` in `lint_tex.py`:
the text after applying the rule pipeline in order. -/
def applyRules (rules : List (PyStr → PyStr)) (text : PyStr) : PyStr :=
  rules.foldl (fun acc r => r acc) text

/-- `apply_rules_to_file` rewrites the file exactly when the final text
differs from the original (`if text != original_text`). -/
def driverRewrites (rules : List (PyStr → PyStr)) (text : PyStr) : Prop :=
  applyRules rules text ≠ text

example :
    fix_lists "Foo:\n\\begin{itemize}\n\\item a\n\\item b\n\\end{itemize}".toList =
      "Foo:\n\\begin{itemize}\n\\item a\n\\item b\n\\end{itemize}".toList := by decide

example :
    fix_lists "Foo:\n\n\\begin{itemize}\n\\item a\n\\item b\n\\end{itemize}".toList =
      "Foo:\n\n\\begin{itemize}\n\\item a;\n\\item b.\n\\end{itemize}".toList := by decide

example :
    fix_lists "Текст.\n\n\\begin{itemize}\n\\item рис.\n\\end{itemize}".toList =
      "Текст.\n\n\\begin{itemize}\n\\item Рис..\n\\end{itemize}".toList := by decide

example :
    fix_lists "Текст.\n\n\\begin{itemize}\n\\item Рис..\n\\end{itemize}".toList =
      "Текст.\n\n\\begin{itemize}\n\\item Рис...\n\\end{itemize}".toList := by decide

example :
    fix_lists "Текст.\n\n\\begin{itemize}\n\\item И т.д.\n\\end{itemize}".toList =
      "Текст.\n\n\\begin{itemize}\n\\item И т.д..\n\\end{itemize}".toList := by decide

example :
    fix_lists "Текст.\n\n\\begin{itemize}\n\\item Привет!\n\\end{itemize}".toList =
      "Текст.\n\n\\begin{itemize}\n\\item Привет!.\n\\end{itemize}".toList := by decide

example :
    fix_lists "пусть x, где\n\n\\begin{itemize}\n\\item a -- b\n\\item c -- d\n\\end{itemize}".toList =
      "пусть x, где\n\n\\begin{itemize}\n\\item A -- b;\n\\item C -- d.\n\\end{itemize}".toList := by decide

/-!
Lemmas and claim theorems for the citation collector and the
bibliography reorderer (claims C1, C2, C10).
-/

/-- Spec-side notion for claim C10: the first-occurrence order of a key
stream (each key listed at its first appearance). -/
def seenFold (init : List PyStr) (stream : List PyStr) : List PyStr :=
  stream.foldl (fun acc k => if acc.contains k then acc else acc ++ [k]) init

/-- Processing a list of fragments `(filename, text)` in order from the
empty global state (the collector phase of a linter run). -/
def collectFragments (frags : List (PyStr × PyStr)) : CiteState :=
  frags.foldl (fun s f => process_text_file s f.2 f.1) emptyCiteState

theorem lookup_isSome_iff_contains (l : List (PyStr × Nat × Nat)) (k : PyStr) :
    (l.lookup k).isSome = (l.map Prod.fst).contains k := by
  induction l with
  | nil => simp
  | cons p ps ih =>
      cases hkp : (k == p.1) with
      | true => simp [List.lookup, hkp]
      | false => simp [List.lookup, hkp, ih]

theorem recordCitation_rank (fi : Nat) (cs : List (Nat × PyStr)) :
    ∀ (st : CiteState),
      (∀ k c, (k, c) ∈ st.firstOccurrence → c.1 = fi) →
      ∀ k c, (k, c) ∈ (cs.foldl (recordCitation fi) st).firstOccurrence → c.1 = fi := by
  induction cs with
  | nil => intro st h; simpa using h
  | cons p ps ih =>
      intro st h
      refine ih _ ?_
      intro k c hmem
      unfold recordCitation at hmem
      by_cases hs : (st.firstOccurrence.lookup p.2).isSome
      · simp only [hs, if_pos] at hmem
        exact h k c hmem
      · rw [if_neg hs] at hmem
        rcases List.mem_append.mp hmem with hold | hnew
        · exact h k c hold
        · simp only [List.mem_singleton, Prod.mk.injEq] at hnew
          rw [hnew.2]

theorem recordCitation_keys (fi : Nat) (cs : List (Nat × PyStr)) :
    ∀ (st : CiteState),
      ((cs.foldl (recordCitation fi) st).firstOccurrence.map Prod.fst) =
        seenFold (st.firstOccurrence.map Prod.fst) (cs.map Prod.snd) := by
  induction cs with
  | nil => intro st; rfl
  | cons p ps ih =>
      intro st
      have hstep :
          ((recordCitation fi st p).firstOccurrence.map Prod.fst) =
            (if (st.firstOccurrence.map Prod.fst).contains p.2 then
              st.firstOccurrence.map Prod.fst
            else st.firstOccurrence.map Prod.fst ++ [p.2]) := by
        unfold recordCitation
        rw [← lookup_isSome_iff_contains]
        by_cases hs : (st.firstOccurrence.lookup p.2).isSome
        · simp [hs]
        · simp [hs]
      calc ((ps.foldl (recordCitation fi) (recordCitation fi st p)).firstOccurrence.map
              Prod.fst)
          = seenFold ((recordCitation fi st p).firstOccurrence.map Prod.fst)
              (ps.map Prod.snd) := ih _
        _ = seenFold (st.firstOccurrence.map Prod.fst) ((p :: ps).map Prod.snd) := by
              rw [hstep]; rfl

theorem seenFold_append (init : List PyStr) (l1 l2 : List PyStr) :
    seenFold init (l1 ++ l2) = seenFold (seenFold init l1) l2 :=
  List.foldl_append ..

theorem indexOf_eq_length_of_not_mem (a : PyStr) (l : List PyStr) (h : a ∉ l) :
    l.indexOf a = l.length := by
  induction l with
  | nil => rfl
  | cons b bs ih =>
      simp only [List.mem_cons, not_or] at h
      rw [List.indexOf_cons]
      have hba : (b == a) = false := by
        rw [beq_eq_false_iff_ne]
        exact fun hba => h.1 hba.symm
      rw [hba, ih h.2]
      rfl

theorem fileIndexOf_not_mem (name : PyStr) (h : name ∉ FILE_ORDER) :
    fileIndexOf name = FILE_ORDER.length := by
  unfold fileIndexOf
  exact indexOf_eq_length_of_not_mem name FILE_ORDER h

theorem collect_aux (frags : List (PyStr × PyStr)) :
    ∀ (st : CiteState),
      (∀ f ∈ frags, f.1 ∉ FILE_ORDER) →
      (∀ k c, (k, c) ∈ st.firstOccurrence → c.1 = 8) →
      (∀ k c, (k, c) ∈
          (frags.foldl (fun s f => process_text_file s f.2 f.1) st).firstOccurrence →
        c.1 = 8) ∧
      ((frags.foldl (fun s f => process_text_file s f.2 f.1) st).firstOccurrence.map
          Prod.fst =
        seenFold (st.firstOccurrence.map Prod.fst)
          ((frags.map (fun f => citationsOf f.2)).flatten)) := by
  induction frags with
  | nil => intro st _ h; exact ⟨h, rfl⟩
  | cons f fs ih =>
      intro st hmem h
      have hfi : fileIndexOf f.1 = 8 := by
        have := fileIndexOf_not_mem f.1 (hmem f (by simp))
        simpa using this
      have hstep1 : ∀ k c, (k, c) ∈ (process_text_file st f.2 f.1).firstOccurrence →
          c.1 = 8 := by
        unfold process_text_file
        rw [hfi]
        exact recordCitation_rank 8 _ st h
      have hstep2 : ((process_text_file st f.2 f.1).firstOccurrence.map Prod.fst) =
          seenFold (st.firstOccurrence.map Prod.fst) (citationsOf f.2) := by
        unfold process_text_file
        rw [recordCitation_keys, List.enum_map_snd]
      obtain ⟨ih1, ih2⟩ := ih (process_text_file st f.2 f.1)
        (fun g hg => hmem g (by simp [hg])) hstep1
      refine ⟨ih1, ?_⟩
      rw [List.foldl_cons, ih2, hstep2, List.map_cons, List.flatten_cons, seenFold_append]

/-- C10: every fragment whose filename stem is not one of the eight
`.pdf` names of `FILE_ORDER` (in particular every `.tex` stem) is
assigned the unranked sentinel `len(FILE_ORDER) = 8`; consequently,
after processing any such fragments, every first-occurrence coordinate
carries rank 8 and the key order of the first-occurrence map is exactly
the order in which keys first occur across the fragments in processing
order. -/
theorem collector_sentinel_rank_and_processing_order
    (frags : List (PyStr × PyStr)) (hst : ∀ f ∈ frags, f.1 ∉ FILE_ORDER) :
    (∀ name : PyStr, name ∉ FILE_ORDER → fileIndexOf name = FILE_ORDER.length) ∧
    FILE_ORDER.length = 8 ∧
    (∀ k c, (k, c) ∈ (collectFragments frags).firstOccurrence → c.1 = 8) ∧
    ((collectFragments frags).firstOccurrence.map Prod.fst =
      seenFold [] ((frags.map (fun f => citationsOf f.2)).flatten)) := by
  obtain ⟨h1, h2⟩ := collect_aux frags emptyCiteState hst
    (by intro k c h; simp [emptyCiteState] at h)
  exact ⟨fun name h => fileIndexOf_not_mem name h, by decide, h1, h2⟩

/-- Fragments used by the C10 witness. -/
def c10_frags : List (PyStr × PyStr) :=
  [("chapter_one".toList, "см. \\cite\x7bx, y\x7d и \\cite\x7bx\x7d".toList),
   ("chapter_two".toList, "ср. \\cite\x7bz\x7d и \\cite\x7by\x7d".toList)]

/-- C10 witness: the theorem applied to two concrete `.tex`-style
fragment stems. -/
theorem collector_sentinel_rank_witness :
    (∀ f ∈ c10_frags, f.1 ∉ FILE_ORDER) ∧
    (∀ k c, (k, c) ∈ (collectFragments c10_frags).firstOccurrence → c.1 = 8) ∧
    ((collectFragments c10_frags).firstOccurrence.map Prod.fst =
      seenFold [] ((c10_frags.map (fun f => citationsOf f.2)).flatten)) ∧
    ((collectFragments c10_frags).firstOccurrence.map Prod.fst =
      ["x".toList, "y".toList, "z".toList]) := by
  have h := collector_sentinel_rank_and_processing_order c10_frags (by decide)
  exact ⟨by decide, h.2.2.1, h.2.2.2, by decide⟩

/-- Citation state of the C1 counterexample run: two fragments with
unranked stems, the first citing `a` then `b`, the second citing `c`. -/
def c1_state : CiteState :=
  process_text_file
    (process_text_file emptyCiteState "раз \\cite\x7ba\x7d два \\cite\x7bb\x7d".toList
      "frag_one".toList)
    "три \\cite\x7bc\x7d".toList "frag_two".toList

/-- Bibliography text of the C1 counterexample run. -/
def c1_bib : PyStr :=
  ("\\begin{thebibliography}\x7b\x7d\n\\bibitem\x7bc\x7d Src C\n\\bibitem\x7ba\x7d Src A\n\\bibitem\x7bb\x7d Src B\n\\end{thebibliography}").toList

set_option maxRecDepth 4000 in
/-- C1 counterexample: after collecting `a (8,0)`, `b (8,1)` from one
fragment and `c (8,0)` from a later fragment, the reorderer rebuilds
the entries as `a, b, c` (first-occurrence map insertion order), which
is not ascending in the recorded `(fragment_rank, position)`
coordinates (`b (8,1)` precedes `c (8,0)`), contradicting the claimed
coordinate-sorted target order. -/
theorem reorderer_output_not_coordinate_sorted :
    targetOrderOf c1_state c1_bib = ["a".toList, "b".toList, "c".toList] ∧
    coordOf c1_state "b".toList = (8, 1) ∧
    coordOf c1_state "c".toList = (8, 0) ∧
    coordAscending c1_state (targetOrderOf c1_state c1_bib) = false ∧
    (process_links_file c1_state c1_bib).2.2 =
      ("\\begin{thebibliography}\x7b\x7d\n\t\\vspace\x7b-1\\baselineskip\x7d\n\n\\bibitem\x7ba\x7d Src A\n\\bibitem\x7bb\x7d Src B\n\\bibitem\x7bc\x7d Src C\n\n\\end{thebibliography}").toList := by
  decide

/-- C1 (amended): for every state and every bibliography text in which
both environment markers are found, the rebuilt entry order equals the
keys of the first-occurrence map in map (insertion) order, restricted
to keys that have bibliography entries, followed by the remaining
existing entries in their original relative order. -/
theorem reorderer_target_is_first_occurrence_order
    (st : CiteState) (text : PyStr)
    (h1 : (pyFind text beginBibTok).isSome)
    (h2 : (pyFind text endBibTok).isSome) :
    targetOrderOf st text = specFirstOccurrenceTarget st text := rfl

/-- State for the C1 amended witness. -/
def c1w_state : CiteState :=
  process_text_file emptyCiteState "текст \\cite\x7bw\x7d".toList "frag_w".toList

/-- Bibliography text for the C1 amended witness. -/
def c1w_bib : PyStr :=
  ("\\begin{thebibliography}\x7b\x7d\n\\bibitem\x7bw\x7d Src W\n\\bibitem\x7bv\x7d Src V\n\\end{thebibliography}").toList

/-- C1 witness: the amended theorem applied at a concrete state and
text with the environment present. -/
theorem reorderer_target_is_first_occurrence_order_witness :
    (pyFind c1w_bib beginBibTok).isSome = true ∧
    (pyFind c1w_bib endBibTok).isSome = true ∧
    targetOrderOf c1w_state c1w_bib = specFirstOccurrenceTarget c1w_state c1w_bib ∧
    targetOrderOf c1w_state c1w_bib = ["w".toList, "v".toList] :=
  ⟨by decide, by decide,
   reorderer_target_is_first_occurrence_order c1w_state c1w_bib (by decide) (by decide),
   by decide⟩

/-- Citation state of the C2 counterexample run: one fragment citing
`q`. -/
def c2_state : CiteState :=
  process_text_file emptyCiteState "см. \\cite\x7bq\x7d".toList "frag_q".toList

/-- Bibliography text of the C2 counterexample run, already in target
order. -/
def c2_bib : PyStr :=
  ("\\begin{thebibliography}\x7b\x7d\n\\bibitem\x7bq\x7d Src Q\n\\end{thebibliography}").toList

/-- C2 counterexample: the bibliography already lists its single entry
in target order, so `_process_links_file` returns the text unchanged
through the early `new_order == bib_order` exit, and the global
citation state (nonempty here) is left intact rather than cleared. -/
theorem links_state_not_cleared_when_order_matches :
    process_links_file c2_state c2_bib = (c2_state, 0, c2_bib) ∧
    c2_state ≠ emptyCiteState ∧
    (pyFind c2_bib beginBibTok).isSome = true ∧
    (pyFind c2_bib endBibTok).isSome = true := by
  decide

/-- C2 (amended): for every state and bibliography text in which both
environment markers are found, the reorderer clears the global
citation state exactly when it rebuilds the environment; when the
existing order already equals the target order it returns the text
unchanged together with the untouched state. -/
theorem links_clears_state_only_on_reorder
    (st : CiteState) (text : PyStr) (es ee : Nat)
    (h1 : pyFind text beginBibTok = some es)
    (h2 : pyFind text endBibTok = some ee) :
    (newOrderOf st (parseBib (splitlinesPy (pySlice text es ee))).1
        (parseBib (splitlinesPy (pySlice text es ee))).2 =
          (parseBib (splitlinesPy (pySlice text es ee))).2 →
      process_links_file st text = (st, 0, text)) ∧
    (newOrderOf st (parseBib (splitlinesPy (pySlice text es ee))).1
        (parseBib (splitlinesPy (pySlice text es ee))).2 ≠
          (parseBib (splitlinesPy (pySlice text es ee))).2 →
      (process_links_file st text).1 = emptyCiteState) := by
  unfold process_links_file
  rw [h1, h2]
  constructor
  · intro he
    simp only [he, if_pos]
  · intro hne
    simp only [if_neg hne]

/-- State for the C2 amended witness: `b` recorded before `a`. -/
def c2w_state : CiteState :=
  process_text_file emptyCiteState "см. \\cite\x7bbb\x7d и \\cite\x7baa\x7d".toList
    "frag_r".toList

/-- Bibliography text for the C2 amended witness, not in target
order. -/
def c2w_bib : PyStr :=
  ("\\begin{thebibliography}\x7b\x7d\n\\bibitem\x7baa\x7d Src A\n\\bibitem\x7bbb\x7d Src B\n\\end{thebibliography}").toList

/-- C2 witness: the amended theorem applied at a concrete reordering
run; the state is cleared there. -/
theorem links_clears_state_only_on_reorder_witness :
    pyFind c2w_bib beginBibTok = some 0 ∧
    (process_links_file c2w_state c2w_bib).1 = emptyCiteState :=
  ⟨by decide,
   (links_clears_state_only_on_reorder c2w_state c2w_bib 0 64 (by decide) (by decide)).2
     (by decide)⟩

/-- C8 (amended): for every entry whose lead segment splits into
exactly 4 author chunks, with no match of the full-author-list slash
pattern, no et-al indication, and no match of the surname-comma-initial
pattern (rule 1), `validate_author_rules` produces exactly one warning,
the required-slash warning. -/
theorem author_rules_single_warning
    (entry : PyStr)
    (h4 : (extract_start_authors entry).length = 4)
    (hsl : slashSection entry = none)
    (het : has_etal_indication entry = false)
    (hcm : authorCommaFindall entry = []) :
    validate_author_rules entry = [AuthorWarning.needSlash 4] := by
  simp [validate_author_rules, h4, hsl, het, hcm]

/-- Entry of the C8 counterexample: four comma and semicolon separated
author chunks, no slash, no et-al marker, but a surname-comma-initial
occurrence. -/
def c8_entry : PyStr := "Иванов, А. Петров; Б. Сидоров; В. Козлов".toList

/-- C8 counterexample: the entry satisfies the hypotheses of the claim
(4 authors in the lead segment, no slash section, no et-al marker),
yet `validate_author_rules` produces two warnings, because the
surname-comma-initial rule also fires. -/
theorem author_rules_two_warnings_counterexample :
    (extract_start_authors c8_entry).length = 4 ∧
    slashSection c8_entry = none ∧
    has_etal_indication c8_entry = false ∧
    validate_author_rules c8_entry =
      [AuthorWarning.commaForm "Иванов".toList "А.".toList,
       AuthorWarning.needSlash 4] ∧
    (validate_author_rules c8_entry).length ≠ 1 := by
  decide

/-- Entry of the C8 amended witness: four authors in the conventional
format, which produces no rule-1 match. -/
def c8w_entry : PyStr :=
  "Иванов А.А., Петров Б.Б., Сидоров В.В., Козлов Г.Г. Название работы".toList

/-- C8 witness: the amended theorem applied at a concrete entry. -/
theorem author_rules_single_warning_witness :
    (extract_start_authors c8w_entry).length = 4 ∧
    authorCommaFindall c8w_entry = [] ∧
    validate_author_rules c8w_entry = [AuthorWarning.needSlash 4] :=
  ⟨by decide, by decide,
   author_rules_single_warning c8w_entry (by decide) (by decide) (by decide) (by decide)⟩

/-- Input of the C3 failing run: a standard-mode list whose single item
ends in the abbreviation `рис.`. -/
def c3_text : PyStr := "Текст.\n\n\\begin{itemize}\n\\item рис.\n\\end{itemize}".toList

/-- C3: `fix_lists` is not idempotent.  On the failing input the first
run produces the item `Рис..` (the abbreviation period is kept and the
standard-mode period appended); the second run produces `Рис...`,
because the abbreviation regex also matches `рис..` (its alternation
contains both `рис` and `рис.`), so the appended period is again kept
and another one appended.  The third run is the first fixed point. -/
theorem fix_lists_not_idempotent :
    fix_lists c3_text = "Текст.\n\n\\begin{itemize}\n\\item Рис..\n\\end{itemize}".toList ∧
    fix_lists (fix_lists c3_text) =
      "Текст.\n\n\\begin{itemize}\n\\item Рис...\n\\end{itemize}".toList ∧
    fix_lists (fix_lists c3_text) ≠ fix_lists c3_text := by
  decide

/-- Input of the C4 counterexample: a standard-mode item ending in the
abbreviation `т.д.`. -/
def c4_text : PyStr := "Текст.\n\n\\begin{itemize}\n\\item И т.д.\n\\end{itemize}".toList

/-- C4 counterexample: the abbreviation period is indeed not stripped,
but the standard-mode terminal period is still appended after it, so
the item ending changes from `т.д.` to `т.д..` instead of staying
unchanged. -/
theorem abbrev_item_gains_extra_period :
    fix_lists c4_text =
      "Текст.\n\n\\begin{itemize}\n\\item И т.д..\n\\end{itemize}".toList ∧
    (splitlinesPy c4_text).getD 3 [] = "\\item И т.д.".toList ∧
    (splitlinesPy (fix_lists c4_text)).getD 3 [] = "\\item И т.д..".toList ∧
    (splitlinesPy (fix_lists c4_text)).getD 3 [] ≠ (splitlinesPy c4_text).getD 3 [] := by
  decide

/-- C4 (amended): in the terminal-punctuation stage of `fix_lists`,
an item body whose right-stripped form ends with a recognised
abbreviation and its period keeps that period (it is not stripped), but
the terminal punctuation of the decided mode is still appended after
it. -/
theorem abbrev_period_kept_mark_appended
    (body : PyStr) (modeColon isAfterGde isLast : Bool)
    (habbr : is_abbreviation (pyRstrip body) = true)
    (hdot : (pyRstrip body).getLast? = some '.') :
    endingStep body modeColon isAfterGde isLast =
      pyRstrip body ++ modeEnding modeColon isAfterGde isLast := by
  simp [endingStep, hdot, habbr]

/-- C4 witness: the amended theorem applied at a concrete body. -/
theorem abbrev_period_kept_mark_appended_witness :
    is_abbreviation (pyRstrip "и т.д.".toList) = true ∧
    endingStep "и т.д.".toList false false false =
      pyRstrip "и т.д.".toList ++ modeEnding false false false ∧
    endingStep "и т.д.".toList false false false = "и т.д..".toList :=
  ⟨by decide,
   abbrev_period_kept_mark_appended "и т.д.".toList false false false
     (by decide) (by decide),
   by decide⟩

/-- Input of the C5 counterexample: a standard-mode item ending in an
exclamation mark. -/
def c5_text : PyStr := "Текст.\n\n\\begin{itemize}\n\\item Привет!\n\\end{itemize}".toList

/-- C5 counterexample: the trailing exclamation mark is not stripped,
but the standard-mode terminal period is appended after it, so the item
ending is altered from `Привет!` to `Привет!.`. -/
theorem bang_item_gains_period :
    fix_lists c5_text =
      "Текст.\n\n\\begin{itemize}\n\\item Привет!.\n\\end{itemize}".toList ∧
    (splitlinesPy c5_text).getD 3 [] = "\\item Привет!".toList ∧
    (splitlinesPy (fix_lists c5_text)).getD 3 [] = "\\item Привет!.".toList ∧
    (splitlinesPy (fix_lists c5_text)).getD 3 [] ≠ (splitlinesPy c5_text).getD 3 [] := by
  decide

/-- C5 (amended): in the terminal-punctuation stage of `fix_lists`,
an item body whose right-stripped form ends with an exclamation or
question mark keeps that mark (it is never stripped), but the terminal
punctuation of the decided mode is still appended after it. -/
theorem bang_question_kept_mark_appended
    (body : PyStr) (modeColon isAfterGde isLast : Bool) (c : Char)
    (hc : (pyRstrip body).getLast? = some c)
    (hbq : c = '!' ∨ c = '?') :
    endingStep body modeColon isAfterGde isLast =
      pyRstrip body ++ modeEnding modeColon isAfterGde isLast := by
  rcases hbq with rfl | rfl <;> simp [endingStep, hc]

/-- C5 witness: the amended theorem applied at a concrete body. -/
theorem bang_question_kept_mark_appended_witness :
    (pyRstrip "Ура!".toList).getLast? = some '!' ∧
    endingStep "Ура!".toList false false false =
      pyRstrip "Ура!".toList ++ modeEnding false false false ∧
    endingStep "Ура!".toList false false false = "Ура!.".toList :=
  ⟨by decide,
   bang_question_kept_mark_appended "Ура!".toList false false false '!'
     (by decide) (Or.inl rfl),
   by decide⟩

/-- Input of the C6 failing run: a colon-terminated line directly
followed by the list (no blank line in between). -/
def c6_text : PyStr :=
  "Заголовок:\n\\begin{itemize}\n\\item первый\n\\item второй\n\\end{itemize}".toList

/-- The same list with a blank line before `\begin{itemize}`. -/
def c6_text_blank : PyStr :=
  "Заголовок:\n\n\\begin{itemize}\n\\item первый\n\\item второй\n\\end{itemize}".toList

/-- C6: after a non-list line at index `i`, the scanner adds `i + 1` to
`processed_positions` and therefore never examines it, so a
`\begin{itemize}` directly following a non-empty line is skipped
wholesale: the colon-mode list keeps its unpunctuated items, violating
the mode-correctness claim.  The same list preceded by a blank line is
processed as the claim describes (`;` on the non-final item, `.` on the
final item), showing the intended behaviour. -/
theorem colon_list_skipped_when_unscanned :
    fix_lists c6_text = c6_text ∧
    ¬ ([';'] : PyStr).isSuffixOf ((splitlinesPy (fix_lists c6_text)).getD 2 []) ∧
    ¬ (['.'] : PyStr).isSuffixOf ((splitlinesPy (fix_lists c6_text)).getD 3 []) ∧
    fix_lists c6_text_blank =
      "Заголовок:\n\n\\begin{itemize}\n\\item первый;\n\\item второй.\n\\end{itemize}".toList := by
  decide

/-!
Infrastructure for claims C7 and C9: lines produced by `splitlinesPy`
contain no line terminators, `fix_lists` preserves that property, and
`joinNL` followed by `splitlinesPy` restores terminator-free lines.
-/

/-- A line free of line terminators. -/
def cleanLine (l : PyStr) : Prop := ∀ c ∈ l, isLineTerm c = false

theorem cleanLine_mono {l1 l2 : PyStr} (h : l1 ⊆ l2) (h2 : cleanLine l2) :
    cleanLine l1 := fun c hc => h2 c (h hc)

theorem cleanLine_append {l1 l2 : PyStr} (h1 : cleanLine l1) (h2 : cleanLine l2) :
    cleanLine (l1 ++ l2) := by
  intro c hc
  rcases List.mem_append.mp hc with h | h
  · exact h1 c h
  · exact h2 c h

theorem cleanLine_reverse {l : PyStr} (h : cleanLine l) : cleanLine l.reverse := by
  intro c hc
  exact h c (List.mem_reverse.mp hc)

theorem pyRstrip_subset (s : PyStr) : pyRstrip s ⊆ s := by
  intro c hc
  simp only [pyRstrip, List.mem_reverse] at hc
  exact List.mem_reverse.mp ((List.dropWhile_sublist _).subset hc)

theorem pyLstrip_subset (s : PyStr) : pyLstrip s ⊆ s :=
  (List.dropWhile_sublist _).subset

theorem pyStrip_subset (s : PyStr) : pyStrip s ⊆ s :=
  fun _ hc => pyRstrip_subset s (pyLstrip_subset (pyRstrip s) hc)

theorem splitlinesAux_clean :
    ∀ (s acc : PyStr) (p : Bool), cleanLine acc →
      ∀ l ∈ splitlinesAux s acc p, cleanLine l := by
  intro s acc p
  induction s, acc, p using splitlinesAux.induct with
  | case1 acc p he =>
      intro hacc l hl
      simp [splitlinesAux, he] at hl
  | case2 acc p he =>
      intro hacc l hl
      rw [splitlinesAux, if_neg he] at hl
      rcases List.mem_singleton.mp hl with rfl
      exact cleanLine_reverse hacc
  | case3 c rest acc prevCR hskip ih =>
      intro hacc l hl
      rw [splitlinesAux, if_pos hskip] at hl
      exact ih (by intro x hx; cases hx) l hl
  | case4 rest acc prevCR hskip ih =>
      intro hacc l hl
      rw [splitlinesAux, if_neg hskip, if_pos rfl] at hl
      rcases List.mem_cons.mp hl with rfl | h
      · exact cleanLine_reverse hacc
      · exact ih (by intro x hx; cases hx) l h
  | case5 c rest acc prevCR hskip hcr hterm ih =>
      intro hacc l hl
      rw [splitlinesAux, if_neg hskip, if_neg hcr, if_pos hterm] at hl
      rcases List.mem_cons.mp hl with rfl | h
      · exact cleanLine_reverse hacc
      · exact ih (by intro x hx; cases hx) l h
  | case6 c rest acc prevCR hskip hcr hterm ih =>
      intro hacc l hl
      rw [splitlinesAux, if_neg hskip, if_neg hcr, if_neg hterm] at hl
      refine ih ?_ l hl
      intro x hx
      rcases List.mem_cons.mp hx with rfl | h
      · simpa using hterm
      · exact hacc x h

theorem splitlinesPy_clean (s : PyStr) : ∀ l ∈ splitlinesPy s, cleanLine l :=
  splitlinesAux_clean s [] false (by intro c hc; cases hc)

theorem splitlinesAux_append_clean (a : PyStr) (h : cleanLine a) :
    ∀ (s acc : PyStr),
      splitlinesAux (a ++ s) acc false = splitlinesAux s (a.reverse ++ acc) false := by
  induction a with
  | nil => intro s acc; simp
  | cons c a ih =>
      intro s acc
      have hterm : isLineTerm c = false := h c (by simp)
      have hcr : ¬(c = '\r') := by
        intro e; rw [e] at hterm; simp [isLineTerm] at hterm
      rw [List.cons_append, splitlinesAux, if_neg (by simp), if_neg hcr,
        if_neg (by simp [hterm]),
        ih (fun x hx => h x (by simp [hx])) s (c :: acc)]
      simp [List.append_assoc]

theorem splitlinesAux_ne_nil :
    ∀ (s acc : PyStr), s ≠ [] ∨ acc ≠ [] → splitlinesAux s acc false ≠ [] := by
  intro s
  induction s with
  | nil =>
      intro acc h
      rcases h with h | h
      · exact absurd rfl h
      · simp [splitlinesAux, h]
  | cons c rest ih =>
      intro acc _
      by_cases hcr : c = '\r'
      · rw [splitlinesAux, if_neg (by simp), if_pos hcr]
        simp
      · by_cases hterm : isLineTerm c
        · rw [splitlinesAux, if_neg (by simp), if_neg hcr, if_pos hterm]
          simp
        · rw [splitlinesAux, if_neg (by simp), if_neg hcr, if_neg hterm]
          exact ih (c :: acc) (Or.inr (by simp))

theorem splitlines_joinNL_get :
    ∀ (ls : List PyStr) (k : Nat) (x : PyStr),
      (∀ y ∈ ls, cleanLine y) → ls[k]? = some x → x ≠ [] →
      (splitlinesPy (joinNL ls))[k]? = some x := by
  intro ls
  induction ls with
  | nil => intro k x _ hk; simp at hk
  | cons a rest ih =>
      intro k x hclean hk hx
      cases rest with
      | nil =>
          cases k with
          | zero =>
              simp only [List.getElem?_cons_zero, Option.some_inj] at hk
              subst hk
              have ha : cleanLine a := hclean a (by simp)
              show (splitlinesAux (joinNL [a]) [] false)[0]? = some a
              have hj : joinNL [a] = a ++ [] := by simp [joinNL]
              rw [hj, splitlinesAux_append_clean a ha [] []]
              have hae : (a.reverse ++ []).isEmpty = false := by
                simp [List.isEmpty_iff, hx]
              simp [splitlinesAux, hae, hx]
          | succ k => simp at hk
      | cons b rest2 =>
          have hjoin : joinNL (a :: b :: rest2) = a ++ '\n' :: joinNL (b :: rest2) := rfl
          have ha : cleanLine a := hclean a (by simp)
          have hsplit : splitlinesPy (joinNL (a :: b :: rest2)) =
              a :: splitlinesPy (joinNL (b :: rest2)) := by
            show splitlinesAux (joinNL (a :: b :: rest2)) [] false = _
            rw [hjoin, splitlinesAux_append_clean a ha _ []]
            rw [splitlinesAux, if_neg (by simp), if_neg (by decide),
              if_pos (by decide)]
            simp [splitlinesPy]
          rw [hsplit]
          cases k with
          | zero =>
              simp only [List.getElem?_cons_zero, Option.some_inj] at hk ⊢
              exact hk
          | succ k =>
              simp only [List.getElem?_cons_succ] at hk ⊢
              exact ih k x (fun y hy => hclean y (by simp [hy])) hk hx

theorem getD_eq_of_getElem? {l : List PyStr} {k : Nat} {x : PyStr}
    (h : l[k]? = some x) : l.getD k [] = x := by
  simp [List.getD, h]

theorem nearestCtx_line (lines : List PyStr) :
    ∀ (n c : Nat) (cl : PyStr), nearestCtx lines n = some (c, cl) →
      cl = lines.getD c [] := by
  intro n
  induction n with
  | zero => intro c cl h; simp [nearestCtx] at h
  | succ n ih =>
      intro c cl h
      simp only [nearestCtx] at h
      by_cases he : (pyStrip (lines.getD n [])).isEmpty
      · rw [if_pos he] at h
        exact ih c cl h
      · rw [if_neg he] at h
        injection h with h
        injection h with h1 h2
        subst h1
        exact h2.symm

theorem itemsOf_line (lines : List PyStr) (s e : Nat) :
    ∀ t ∈ itemsOf lines s e, t.2.2 = lines.getD t.1 [] := by
  intro t ht
  simp only [itemsOf, List.mem_filterMap] at ht
  obtain ⟨j, _, hmatch⟩ := ht
  rcases hf : pyFind (lines.getD j []) itemTok with _ | p
  · rw [hf] at hmatch
    cases hmatch
  · rw [hf] at hmatch
    injection hmatch with hmatch
    subst hmatch
    rfl

theorem itemsFold_getElem (items : List (Nat × Nat × PyStr)) (m g : Bool) :
    ∀ (lines : List PyStr) (k : Nat),
      (∀ t ∈ items, t.1 = k → containsSub t.2.2 ignoreTok = true) →
      (itemsFold lines items m g)[k]? = lines[k]? := by
  induction items with
  | nil => intro lines k _; rfl
  | cons t ts ih =>
      intro lines k h
      obtain ⟨j, p, l⟩ := t
      simp only [itemsFold]
      by_cases hig : containsSub l ignoreTok
      · rw [if_pos hig]
        exact ih lines k (fun u hu => h u (by simp [hu]))
      · rw [if_neg hig]
        by_cases hem : (pyStrip (pyLstrip (l.drop (p + 5)))).isEmpty
        · rw [if_pos hem]
          exact ih lines k (fun u hu => h u (by simp [hu]))
        · rw [if_neg hem]
          have hjk : j ≠ k := by
            intro e
            exact hig (h (j, p, l) (by simp) e)
          rw [ih _ k (fun u hu => h u (by simp [hu])), List.getElem?_set_ne hjk]

theorem ctxRewrite_getElem (lines : List PyStr) (cIdx : Nat) (cline : PyStr)
    (m g : Bool) (k : Nat) (hk : cIdx ≠ k) :
    (ctxRewrite lines cIdx cline m g)[k]? = lines[k]? := by
  simp only [ctxRewrite]
  split_ifs <;> simp [List.getElem?_set_ne hk]

theorem processList_getElem (lines : List PyStr) (cIdx : Nat) (cline : PyStr)
    (items : List (Nat × Nat × PyStr)) (k : Nat) (l : PyStr)
    (hk : lines[k]? = some l) (hig : containsSub l ignoreTok = true)
    (hcl : cline = lines.getD cIdx [])
    (hits : ∀ t ∈ items, t.2.2 = lines.getD t.1 []) :
    (processList lines cIdx cline items)[k]? = some l := by
  have hitems : ∀ t ∈ items, t.1 = k → containsSub t.2.2 ignoreTok = true := by
    intro t ht he
    rw [hits t ht, he, getD_eq_of_getElem? hk]
    exact hig
  simp only [processList]
  by_cases hkc : cIdx = k
  · have hibt : containsSub cline ignoreTok = true := by
      rw [hcl, hkc, getD_eq_of_getElem? hk]
      exact hig
    rw [hibt]
    simp only [Bool.not_true, Bool.false_eq_true, if_false]
    rw [itemsFold_getElem _ _ _ lines k hitems, hk]
  · rw [itemsFold_getElem _ _ _ _ k hitems]
    by_cases hib : (!containsSub cline ignoreTok) = true
    · rw [if_pos hib, ctxRewrite_getElem _ _ _ _ _ _ hkc, hk]
    · rw [if_neg hib, hk]

theorem lintStep_getElem (lines : List PyStr) (processed : List Nat) (i k : Nat)
    (l : PyStr) (hk : lines[k]? = some l)
    (hig : containsSub l ignoreTok = true) :
    (lintStep lines processed i).1[k]? = some l := by
  simp only [lintStep]
  split
  · split
    · exact hk
    · split
      · exact hk
      · next ctx heq =>
          split
          · exact hk
          · exact processList_getElem _ _ _ _ k l hk hig
              (nearestCtx_line lines i ctx.1 ctx.2 (by rw [heq]))
              (itemsOf_line _ _ _)
  · exact hk

theorem fixLoopFuel_getElem (fuel : Nat) :
    ∀ (lines : List PyStr) (processed : List Nat) (i k : Nat) (l : PyStr),
      lines[k]? = some l → containsSub l ignoreTok = true →
      (fixLoopFuel fuel lines processed i)[k]? = some l := by
  induction fuel with
  | zero => intro lines processed i k l hk _; exact hk
  | succ fuel ih =>
      intro lines processed i k l hk hig
      simp only [fixLoopFuel]
      split_ifs with h1 h2 h3
      · exact ih lines processed (i + 1) k l hk hig
      · exact hk
      · exact ih _ _ _ k l (lintStep_getElem lines processed i k l hk hig) hig
      · exact hk

theorem lookup_mem_values {α β : Type} [BEq α] (l : List (α × β)) (k : α) (d : β)
    (h : l.lookup k = some d) : d ∈ l.map Prod.snd := by
  induction l with
  | nil => cases h
  | cons p ps ih =>
      simp only [List.lookup] at h
      cases hb : (k == p.1) with
      | true =>
          rw [hb] at h
          injection h with h
          subst h
          simp
      | false =>
          rw [hb] at h
          simp only [List.map_cons, List.mem_cons]
          exact Or.inr (ih h)

theorem pyToUpper_clean (c : Char) (h : isLineTerm c = false) :
    isLineTerm (pyToUpper c) = false := by
  unfold pyToUpper
  rcases hl : upperTable.lookup c with _ | d
  · simpa using h
  · have hmem := lookup_mem_values _ _ _ hl
    have hall : ∀ d ∈ upperTable.map Prod.snd, isLineTerm d = false := by decide
    simpa using hall d hmem

theorem pyToLower_clean (c : Char) (h : isLineTerm c = false) :
    isLineTerm (pyToLower c) = false := by
  unfold pyToLower
  rcases hl : lowerTable.lookup c with _ | d
  · simpa using h
  · have hmem := lookup_mem_values _ _ _ hl
    have hall : ∀ d ∈ lowerTable.map Prod.snd, isLineTerm d = false := by decide
    simpa using hall d hmem

theorem getD_char_clean (l : PyStr) (h : cleanLine l) (k : Nat) :
    isLineTerm (l.getD k ' ') = false := by
  rcases hx : l[k]? with _ | x
  · have he : l.getD k ' ' = ' ' := by simp [List.getD, hx]
    rw [he]
    decide
  · have he : l.getD k ' ' = x := by simp [List.getD, hx]
    rw [he]
    exact h x (List.getElem?_mem hx)

theorem cleanLine_set (l : PyStr) (k : Nat) (c : Char) (h : cleanLine l)
    (hc : isLineTerm c = false) : cleanLine (l.set k c) := by
  intro x hx
  rcases List.mem_or_eq_of_mem_set hx with h1 | rfl
  · exact h x h1
  · exact hc

theorem caseStep_clean (after : PyStr) (m g : Bool) (h : cleanLine after) :
    cleanLine (caseStep after m g) := by
  rcases hfi : after.findIdx? pyIsAlpha with _ | k
  · simp only [caseStep, hfi]
    split_ifs <;> exact h
  · simp only [caseStep, hfi]
    have hlo := pyToLower_clean _ (getD_char_clean after h k)
    have hup := pyToUpper_clean _ (getD_char_clean after h k)
    generalize hgl : pyToLower (after.getD k ' ') = cl at hlo
    generalize hgu : pyToUpper (after.getD k ' ') = cu at hup
    split_ifs <;>
      first
        | exact h
        | exact cleanLine_set _ _ _ h hlo
        | exact cleanLine_set _ _ _ h hup

theorem modeEnding_clean (m g l : Bool) : cleanLine (modeEnding m g l) := by
  unfold modeEnding
  split_ifs <;> (intro c hc; rcases List.mem_singleton.mp hc with rfl) <;> decide

theorem endingStep_clean (s : PyStr) (m g l : Bool) (h : cleanLine s) :
    cleanLine (endingStep s m g l) := by
  have hsa : cleanLine (pyRstrip s) := cleanLine_mono (pyRstrip_subset s) h
  simp only [endingStep]
  rcases hl : (pyRstrip s).getLast? with _ | c
  · intro x hx
    cases hx
  · refine cleanLine_append ?_ (modeEnding_clean m g l)
    split_ifs
    · exact cleanLine_mono
        (fun x hx => List.dropLast_subset _ (pyRstrip_subset _ hx)) hsa
    · exact hsa

theorem cleanLine_itemMarker : cleanLine ("\\item ".toList) := by
  show ∀ c ∈ ("\\item ".toList), isLineTerm c = false
  decide

theorem itemNewLine_clean (before after : PyStr) (m g l : Bool)
    (hb : cleanLine before) (ha : cleanLine after) :
    cleanLine (itemNewLine before after m g l) := by
  unfold itemNewLine
  refine cleanLine_append (cleanLine_append hb cleanLine_itemMarker) ?_
  exact endingStep_clean _ _ _ _ (caseStep_clean after m g ha)

/-- All lines of a line list are terminator-free. -/
def allClean (lines : List PyStr) : Prop := ∀ l ∈ lines, cleanLine l

theorem allClean_getD (lines : List PyStr) (h : allClean lines) (k : Nat) :
    cleanLine (lines.getD k []) := by
  rcases hx : lines[k]? with _ | x
  · have he : lines.getD k [] = [] := by simp [List.getD, hx]
    rw [he]
    intro c hc
    cases hc
  · rw [getD_eq_of_getElem? hx]
    exact h x (List.getElem?_mem hx)

theorem allClean_set (lines : List PyStr) (k : Nat) (v : PyStr)
    (h : allClean lines) (hv : cleanLine v) : allClean (lines.set k v) := by
  intro x hx
  rcases List.mem_or_eq_of_mem_set hx with h1 | rfl
  · exact h x h1
  · exact hv

theorem ctxRewrite_clean (lines : List PyStr) (cIdx : Nat) (cline : PyStr)
    (m g : Bool) (h : allClean lines) (hc : cleanLine cline) :
    allClean (ctxRewrite lines cIdx cline m g) := by
  simp only [ctxRewrite]
  split_ifs <;>
    first
      | exact h
      | (apply allClean_set _ _ _ h
         intro x hx
         simp only [List.mem_append, List.mem_singleton] at hx
         rcases hx with (hx | hx) | rfl
         · exact hc x (List.take_subset _ _ hx)
         · exact hc x (pyRstrip_subset _ (List.dropLast_subset _ (pyRstrip_subset _ hx)))
         · decide)
      | (apply allClean_set _ _ _ h
         intro x hx
         simp only [List.mem_append, List.mem_singleton] at hx
         rcases hx with (hx | hx) | rfl
         · exact hc x (List.take_subset _ _ hx)
         · exact hc x (pyRstrip_subset _ hx)
         · decide)

theorem itemsFold_clean (items : List (Nat × Nat × PyStr)) (m g : Bool) :
    ∀ (lines : List PyStr), allClean lines → (∀ t ∈ items, cleanLine t.2.2) →
      allClean (itemsFold lines items m g) := by
  induction items with
  | nil => intro lines h _; exact h
  | cons t ts ih =>
      intro lines h hits
      obtain ⟨j, p, l⟩ := t
      have hl : cleanLine l := hits (j, p, l) (by simp)
      simp only [itemsFold]
      refine ih _ ?_ (fun u hu => hits u (by simp [hu]))
      have hset : allClean (lines.set j
          (itemNewLine (l.take p) (pyLstrip (l.drop (p + 5))) m g ts.isEmpty)) := by
        refine allClean_set _ _ _ h ?_
        refine itemNewLine_clean _ _ _ _ _ ?_ ?_
        · exact cleanLine_mono (List.take_subset _ _) hl
        · exact cleanLine_mono
            (fun x hx => List.drop_subset _ _ (pyLstrip_subset _ hx)) hl
      split_ifs <;> first | exact h | exact hset

theorem processList_clean (lines : List PyStr) (cIdx : Nat) (cline : PyStr)
    (items : List (Nat × Nat × PyStr)) (h : allClean lines)
    (hc : cleanLine cline) (hits : ∀ t ∈ items, cleanLine t.2.2) :
    allClean (processList lines cIdx cline items) := by
  simp only [processList]
  refine itemsFold_clean _ _ _ _ ?_ hits
  by_cases hib : (!containsSub cline ignoreTok) = true
  · rw [if_pos hib]
    exact ctxRewrite_clean _ _ _ _ _ h hc
  · rw [if_neg hib]
    exact h

theorem lintStep_clean (lines : List PyStr) (processed : List Nat) (i : Nat)
    (h : allClean lines) : allClean (lintStep lines processed i).1 := by
  simp only [lintStep]
  split
  · split
    · exact h
    · split
      · exact h
      · next ctx heq =>
          split
          · exact h
          · refine processList_clean _ _ _ _ h ?_ ?_
            · rw [nearestCtx_line lines i ctx.1 ctx.2 (by rw [heq])]
              exact allClean_getD _ h _
            · intro t ht
              rw [itemsOf_line _ _ _ t ht]
              exact allClean_getD _ h _
  · exact h

theorem fixLoopFuel_clean (fuel : Nat) :
    ∀ (lines : List PyStr) (processed : List Nat) (i : Nat),
      allClean lines → allClean (fixLoopFuel fuel lines processed i) := by
  induction fuel with
  | zero => intro lines _ _ h; exact h
  | succ fuel ih =>
      intro lines processed i h
      simp only [fixLoopFuel]
      split_ifs
      · exact ih lines processed (i + 1) h
      · exact h
      · exact ih _ _ _ (lintStep_clean lines processed i h)
      · exact h

/-- C7: a list-item line carrying the ignore annotation is returned
byte-identical: the corresponding line of the `fix_lists` output equals
the input line exactly, for every input text, whatever the mode, casing
or punctuation of the item. -/
theorem ignore_line_returned_byte_identical
    (text : PyStr) (k : Nat) (l : PyStr)
    (hk : (splitlinesPy text)[k]? = some l)
    (hig : containsSub l ignoreTok = true) :
    (splitlinesPy (fix_lists text))[k]? = some l := by
  have hne : l ≠ [] := by
    intro e
    subst e
    exact absurd hig (by decide)
  have hpres : (fixListsLines (splitlinesPy text))[k]? = some l :=
    fixLoopFuel_getElem _ _ _ _ k l hk hig
  have hcln : allClean (fixListsLines (splitlinesPy text)) :=
    fixLoopFuel_clean _ _ _ _ (splitlinesPy_clean text)
  exact splitlines_joinNL_get _ k l hcln hpres hne

/-- C7 witness: the theorem applied at a concrete text whose third line
is an ignore-annotated item breaking every punctuation rule. -/
theorem ignore_line_returned_byte_identical_witness :
    (splitlinesPy "Шапка:\n\n\\begin{itemize}\n\\item Плохой Конец: % #lint-ignore\n\\item хороший конец\n\\end{itemize}".toList)[3]? =
      some "\\item Плохой Конец: % #lint-ignore".toList ∧
    containsSub "\\item Плохой Конец: % #lint-ignore".toList ignoreTok = true ∧
    (splitlinesPy (fix_lists "Шапка:\n\n\\begin{itemize}\n\\item Плохой Конец: % #lint-ignore\n\\item хороший конец\n\\end{itemize}".toList))[3]? =
      some "\\item Плохой Конец: % #lint-ignore".toList :=
  ⟨by decide, by decide,
   ignore_line_returned_byte_identical _ 3 _ (by decide) (by decide)⟩

theorem getD_mem_of_lt (l : List PyStr) (n : Nat) (h : n < l.length) :
    l.getD n [] ∈ l := by
  rw [getD_eq_of_getElem? (List.getElem?_eq_getElem h)]
  exact List.getElem_mem h

/-- No line of `lines` starts (after stripping) with a list-begin
marker. -/
def noListBeginLines (lines : List PyStr) : Prop :=
  ∀ l ∈ lines,
    (beginItemizeTok.isPrefixOf (pyStrip l) || beginEnumerateTok.isPrefixOf (pyStrip l)) = false

theorem fixLoopFuel_id (fuel : Nat) :
    ∀ (lines : List PyStr) (processed : List Nat) (i : Nat),
      noListBeginLines lines → fixLoopFuel fuel lines processed i = lines := by
  induction fuel with
  | zero => intro lines _ _ _; rfl
  | succ fuel ih =>
      intro lines processed i h
      simp only [fixLoopFuel]
      split_ifs with h1 h2 h3
      · exact ih lines processed (i + 1) h
      · rfl
      · have hstep : lintStep lines processed i = (lines, processed ++ [i + 1], i + 1) := by
          simp only [lintStep]
          rw [if_neg]
          simp only [Bool.not_eq_true]
          exact h (lines.getD i []) (getD_mem_of_lt lines i h1)
        rw [hstep]
        exact ih lines (processed ++ [i + 1]) (i + 1) h
      · rfl

theorem joinNL_cons_length (x : PyStr) (ys : List PyStr) :
    (joinNL (x :: ys)).length ≤ x.length + 1 + (joinNL ys).length := by
  cases ys with
  | nil => simp [joinNL]
  | cons y ys =>
      simp [joinNL]
      try omega

theorem joinNL_splitlinesAux_length_lt :
    ∀ (s : PyStr), ∀ (acc : PyStr) (p : Bool) (c : Char),
      s.getLast? = some c → isLineTerm c = true →
      (joinNL (splitlinesAux s acc p)).length < acc.length + s.length := by
  intro s
  induction s with
  | nil => intro acc p c hc _; cases hc
  | cons a rest ih =>
      intro acc p c hc hterm
      by_cases hskip : (p && a = '\n') = true
      · rw [splitlinesAux, if_pos hskip]
        cases rest with
        | nil => simp [splitlinesAux, joinNL]
        | cons b rest2 =>
            have := ih [] false c (by rw [← hc]; rfl) hterm
            simp only [List.length_cons, List.length_nil] at this ⊢
            omega
      · rw [splitlinesAux, if_neg hskip]
        by_cases hcr : a = '\r'
        · rw [if_pos hcr]
          cases rest with
          | nil => simp [splitlinesAux, joinNL]
          | cons b rest2 =>
              have hrec := ih [] true c (by rw [← hc]; rfl) hterm
              have hbound := joinNL_cons_length acc.reverse
                (splitlinesAux (b :: rest2) [] true)
              simp only [List.length_cons, List.length_nil, List.length_reverse]
                at hrec hbound ⊢
              omega
        · rw [if_neg hcr]
          by_cases ht : isLineTerm a = true
          · rw [if_pos ht]
            cases rest with
            | nil => simp [splitlinesAux, joinNL]
            | cons b rest2 =>
                have hrec := ih [] false c (by rw [← hc]; rfl) hterm
                have hbound := joinNL_cons_length acc.reverse
                  (splitlinesAux (b :: rest2) [] false)
                simp only [List.length_cons, List.length_nil, List.length_reverse]
                  at hrec hbound ⊢
                omega
          · rw [if_neg ht]
            cases rest with
            | nil =>
                injection hc with hc
                subst hc
                exact absurd hterm (by simpa using ht)
            | cons b rest2 =>
                have hrec := ih (a :: acc) false c (by rw [← hc]; rfl) hterm
                simp only [List.length_cons] at hrec ⊢
                omega

theorem joinNL_splitlinesAux_dropLast :
    ∀ (s : PyStr), ∀ (acc : PyStr),
      (∀ c ∈ s, isLineTerm c = true → c = '\n') →
      s.getLast? = some '\n' →
      joinNL (splitlinesAux s acc false) = acc.reverse ++ s.dropLast := by
  intro s
  induction s with
  | nil => intro acc _ hc; cases hc
  | cons a rest ih =>
      intro acc honly hc
      rw [splitlinesAux, if_neg (by simp)]
      by_cases ht : isLineTerm a = true
      · have ha : a = '\n' := honly a (by simp) ht
        rw [if_neg (by rw [ha]; decide), if_pos ht]
        cases rest with
        | nil =>
            subst ha
            simp [splitlinesAux, joinNL]
        | cons b rest2 =>
            have hne : splitlinesAux (b :: rest2) [] false ≠ [] :=
              splitlinesAux_ne_nil _ [] (Or.inl (by simp))
            have hrec := ih [] (fun x hx => honly x (by simp [hx]))
              (by rw [← hc]; rfl)
            rcases hys : splitlinesAux (b :: rest2) [] false with _ | ⟨y, ys⟩
            · exact absurd hys hne
            · rw [hys] at hrec
              subst ha
              show acc.reverse ++ '\n' :: joinNL (y :: ys) = _
              rw [hrec, List.dropLast_cons_of_ne_nil (by simp : (b :: rest2) ≠ [])]
              simp
      · rw [if_neg (fun e => ht (by rw [e]; decide)), if_neg ht]
        cases rest with
        | nil =>
            have ha : a = '\n' := by simpa using hc
            exact absurd (by rw [ha]; decide : isLineTerm a = true) ht
        | cons b rest2 =>
            have hrec := ih (a :: acc) (fun x hx => honly x (by simp [hx]))
              (by rw [← hc]; rfl)
            rw [hrec]
            simp [List.dropLast_cons_of_ne_nil (by simp : (b :: rest2) ≠ [])]

/-- C9 (amended): on a text that ends with a newline and contains no
list environment, `fix_lists` returns the newline-join of the Python
split lines; the result is strictly shorter than the input (the final
terminator contributes no join separator), hence the text is returned
changed and the driver rewrites the file.  When the only line
terminators of the text are `\n` characters, the result is exactly the
text with its final newline removed. -/
theorem no_list_text_loses_final_newline
    (text : PyStr)
    (hnl : text.getLast? = some '\n')
    (hnolist : noListBeginLines (splitlinesPy text)) :
    fix_lists text = joinNL (splitlinesPy text) ∧
    (fix_lists text).length < text.length ∧
    fix_lists text ≠ text ∧
    driverRewrites [fix_lists] text ∧
    ((∀ c ∈ text, isLineTerm c = true → c = '\n') →
      fix_lists text = text.dropLast) := by
  have hid : fixListsLines (splitlinesPy text) = splitlinesPy text := by
    unfold fixListsLines
    exact fixLoopFuel_id _ _ _ _ hnolist
  have h1 : fix_lists text = joinNL (splitlinesPy text) := by
    unfold fix_lists
    rw [hid]
  have hlen : (joinNL (splitlinesPy text)).length < text.length := by
    have := joinNL_splitlinesAux_length_lt text [] false '\n' hnl (by decide)
    simpa [splitlinesPy] using this
  have h2 : (fix_lists text).length < text.length := by rw [h1]; exact hlen
  have h3 : fix_lists text ≠ text := by
    intro e
    rw [e] at h2
    omega
  refine ⟨h1, h2, h3, ?_, ?_⟩
  · show applyRules [fix_lists] text ≠ text
    simpa [applyRules] using h3
  · intro honly
    rw [h1]
    have := joinNL_splitlinesAux_dropLast text [] honly hnl
    simpa [splitlinesPy] using this

/-- C9 counterexample: a text containing a carriage return and ending
with a newline is not returned as the text minus its final newline:
the interior `\r` is rewritten into `\n` by the split-and-join round
trip. -/
theorem cr_text_not_just_newline_dropped :
    fix_lists "a\rb\n".toList = "a\nb".toList ∧
    ("a\rb\n".toList).dropLast = "a\rb".toList ∧
    fix_lists "a\rb\n".toList ≠ ("a\rb\n".toList).dropLast ∧
    ("a\rb\n".toList).getLast? = some '\n' ∧
    noListBeginLines (splitlinesPy "a\rb\n".toList) := by
  refine ⟨by decide, by decide, by decide, by decide, ?_⟩
  intro l hl
  fin_cases hl <;> decide

/-- Text of the C9 witness. -/
def c9w_text : PyStr := "просто текст без окружений\n".toList

/-- C9 witness: the amended theorem applied at a concrete text with
only `\n` terminators. -/
theorem no_list_text_loses_final_newline_witness :
    c9w_text.getLast? = some '\n' ∧
    fix_lists c9w_text = c9w_text.dropLast ∧
    driverRewrites [fix_lists] c9w_text :=
  ⟨by decide,
   (no_list_text_loses_final_newline c9w_text (by decide)
      (by intro l hl; fin_cases hl <;> decide)).2.2.2.2
     (by decide),
   (no_list_text_loses_final_newline c9w_text (by decide)
      (by intro l hl; fin_cases hl <;> decide)).2.2.2.1⟩
